import Mathlib

/-!
Verification of the `data-group` / `context-element` binding engine.

This file gives a shallow embedding of the core of the library: the
attribute-grammar parser and dispatch-table builders, the watch/toggle
attribute synchronizer, the event-to-action dispatcher, dotted-path
evaluation, the active-node scanner, and the keyed array reconciler of
`ArrayContextElement.render`.  JavaScript values are modelled by the
inductive `JSValue`; DOM child lists are modelled as lists of node
identifiers; cloning allocates fresh identifiers from a counter; the
side effects of `console.warn`, `setAttribute`, property assignment and
reducer invocation are made explicit in the return values.
-/

mutual

inductive JSValue where
  | undefined : JSValue
  | null : JSValue
  | bool (b : Bool) : JSValue
  | num (n : Int) : JSValue
  | str (s : String) : JSValue
  | obj (fields : JSFields) : JSValue
deriving DecidableEq

/-- JSFields is a finite association of property names to values, modelling a
plain JavaScript object. -/
inductive JSFields where
  | nil : JSFields
  | cons (key : String) (value : JSValue) (rest : JSFields) : JSFields
deriving DecidableEq

end

/-- Own-property read on a `JSFields` record; a missing property is `undefined`,
as in JavaScript. -/
def jsFieldsLookup : JSFields → String → JSValue
  | .nil, _ => .undefined
  | .cons k v rest, name => if k = name then v else jsFieldsLookup rest name

/-- Property write on a `JSFields` record: overwrite in place, or append a new
property. -/
def jsFieldsSet : JSFields → String → JSValue → JSFields
  | .nil, k, v => .cons k v .nil
  | .cons k0 v0 rest, k, v =>
      if k0 = k then .cons k0 v rest else .cons k0 v0 (jsFieldsSet rest k v)

/-- Total field read `data[name]`, used where the source indexes into a value
that is known to be an object (primitives yield `undefined`). -/
def jsGetField : JSValue → String → JSValue
  | .obj fields, name => jsFieldsLookup fields name
  | _, _ => .undefined

/-- Embeds the source helper `hasValue = (param) => param !== undefined &&
param !== null && param !== ''`. -/
def hasValue : JSValue → Bool
  | .undefined => false
  | .null => false
  | .str s => decide (s ≠ "")
  | _ => true

/-- Embeds the source helper `hasNoValue = (param) => !hasValue(param)`. -/
def hasNoValue (v : JSValue) : Bool := !hasValue v

/-- Variant of the source `hasValue` at type `Option String`, for values that
are either `undefined` (a missed `Map.get`/`getAttribute`) or a string. -/
def hasValueStr : Option String → Bool
  | none => false
  | some s => decide (s ≠ "")

/-- JavaScript truthiness, used to embed the `||` operator of the source. -/
def truthy : JSValue → Bool
  | .undefined => false
  | .null => false
  | .bool b => b
  | .num n => decide (n ≠ 0)
  | .str s => decide (s ≠ "")
  | .obj _ => true

/-- Embeds the JavaScript expression `a || b`. -/
def jsOr (a b : JSValue) : JSValue := if truthy a then a else b

/-- String coercion applied by `setAttribute` and `innerHTML` assignment. -/
def jsToString : JSValue → String
  | .undefined => "undefined"
  | .null => "null"
  | .bool true => "true"
  | .bool false => "false"
  | .num n => toString n
  | .str s => s
  | .obj _ => "[object Object]"

/-- Helper for `splitOnChar`, accumulating the current segment in reverse. -/
def splitOnCharAux (c : Char) : List Char → List Char → List String
  | [], acc => [String.mk acc.reverse]
  | x :: xs, acc =>
      if x = c then String.mk acc.reverse :: splitOnCharAux c xs []
      else splitOnCharAux c xs (x :: acc)

/-- Embeds `String.prototype.split` with a one-character separator; always
returns at least one segment, like its JavaScript counterpart. -/
def splitOnChar (c : Char) (s : String) : List String :=
  splitOnCharAux c s.toList []

/-- Embeds `String.prototype.endsWith`. -/
def strEndsWith (s suffix : String) : Bool :=
  suffix.toList.isSuffixOf s.toList

/-- Substring test on character lists. -/
def isSubstringOf (pat text : List Char) : Bool :=
  text.tails.any (fun t => pat.isPrefixOf t)

/-- Embeds the JavaScript test `text.indexOf(pat) >= 0`. -/
def strIndexOfNonneg (text pat : String) : Bool :=
  isSubstringOf pat.toList text.toList

/-- Embeds the source helper `contains = (text, texts) => texts.reduce((acc,
txt) => acc || text.indexOf(txt) >= 0, false)`.  Note that this is a
substring test, not a suffix test. -/
def contains (text : String) (texts : List String) : Bool :=
  texts.foldl (fun acc txt => acc || strIndexOfNonneg text txt) false

/-- Embeds `Array.prototype.join(' ')`. -/
def joinSpace : List String → String
  | [] => ""
  | [x] => x
  | x :: xs => x ++ " " ++ joinSpace xs

/-- Embeds `String.prototype.toUpperCase` (ASCII, which covers the tag-name
constants of the source). -/
def strToUpper (s : String) : String := String.mk (s.toList.map Char.toUpper)

def DATA_WATCH_ATTRIBUTE : String := "watch"

def DATA_ACTION_ATTRIBUTE : String := "action"

def DATA_TOGGLE_ATTRIBUTE : String := "toggle"

def STATE_PROPERTY : String := "_state"

def STATE_GLOBAL : String := "*"

def DATA_KEY_ATTRIBUTE : String := "data.key"

def ARRAY_CONTEXT_ELEMENT_TAG_NAME : String := "context-array"

def CONTEXT_ELEMENT_TAG_NAME : String := "context-element"

/-- Embeds `composeChangeEventName = (attribute) => attribute + 'Changed'`. -/
def composeChangeEventName (attr : String) : String := attr ++ "Changed"

/-- Embeds the module constant `ignoredAttributes = ['data', 'reducer']`. -/
def ignoredAttributes : List String := ["data", "reducer"]

/-- Embeds `isValidAttribute(attributeName) =
ignoredAttributes.indexOf(attributeName) < 0`. -/
def isValidAttribute (attributeName : String) : Bool :=
  !ignoredAttributes.contains attributeName

/-- Embeds the error-message builder `toggleMissingStateAndProperty`. -/
def toggleMissingStateAndProperty : String :=
  "toggle require 3 parameters separated with dot(.) : ' eg <div class=\"my-div\" class.disabled.toggle=\"disabledCss\"></div>"

/-- Embeds the error-message builder `arrayContextElementMissingDataKey`. -/
def arrayContextElementMissingDataKey : String :=
  "'<context-array>' requires 'data.key' attribute. data-key value should refer to the unique attribute of the data."

/-- Association-list read, modelling `Map.prototype.get` for string-keyed
maps (insertion order preserved, one binding per key). -/
def slookup {α : Type} : List (String × α) → String → Option α
  | [], _ => none
  | (k, v) :: rest, key => if k = key then some v else slookup rest key

/-- Association-list write, modelling `Map.prototype.set`: replaces in place
(keeping the original insertion position) or appends a new key. -/
def aset {α : Type} : List (String × α) → String → α → List (String × α)
  | [], key, v => [(key, v)]
  | (k, v0) :: rest, key, v =>
      if k = key then (k, v) :: rest else (k, v0) :: aset rest key v

/-- Embeds `Map.prototype.get` called with an arbitrary JavaScript value on a
string-keyed map: only a string key can hit. -/
def mget {α : Type} (tbl : List (String × α)) (key : JSValue) : Option α :=
  match key with
  | .str s => slookup tbl s
  | _ => none

instance exceptDecidableEq {ε α : Type} [DecidableEq ε] [DecidableEq α] :
    DecidableEq (Except ε α) := fun a b =>
  match a, b with
  | .ok x, .ok y =>
      if h : x = y then isTrue (by rw [h]) else isFalse (fun he => h (by injection he))
  | .error e, .error f =>
      if h : e = f then isTrue (by rw [h]) else isFalse (fun he => h (by injection he))
  | .ok _, .error _ => isFalse (fun he => by injection he)
  | .error _, .ok _ => isFalse (fun he => by injection he)

/-- Embeds the nested-map update pattern `if (!t.has(outer)) t.set(outer, new
Map()); t.get(outer).set(inner, value)` used by all three table builders. -/
def tableInsert (tbl : List (String × List (String × String)))
    (outer inner value : String) : List (String × List (String × String)) :=
  match slookup tbl outer with
  | none => tbl ++ [(outer, [(inner, value)])]
  | some m => aset tbl outer (aset m inner value)

/-- Embeds `mapEventStateAction`: groups `action` active-attributes by event
then state.  Arity 1 defaults the event to `click`; arity 1 and 2 default
the state to the global sentinel. -/
def mapEventStateAction (attributeValue : List (String × String)) :
    List (String × List (String × String)) :=
  attributeValue.foldl
    (fun tbl p =>
      if strEndsWith p.1 DATA_ACTION_ATTRIBUTE then
        let attributes := splitOnChar '.' p.1
        let event :=
          if attributes.length = 1 then "click"
          else if attributes.length = 2 then attributes.getD 0 ""
          else if attributes.length > 2 then attributes.getD 0 ""
          else ""
        let state :=
          if attributes.length = 1 then STATE_GLOBAL
          else if attributes.length = 2 then STATE_GLOBAL
          else if attributes.length > 2 then attributes.getD 1 ""
          else ""
        tableInsert tbl event state p.2
      else tbl)
    []

/-- Embeds `mapStateAttributeProperty`: groups `watch` active-attributes by
state then attribute.  Arity 1 defaults the attribute to `content`; arity 1
and 2 default the state to the global sentinel. -/
def mapStateAttributeProperty (attributeValue : List (String × String)) :
    List (String × List (String × String)) :=
  attributeValue.foldl
    (fun tbl p =>
      if strEndsWith p.1 DATA_WATCH_ATTRIBUTE then
        let attributes := splitOnChar '.' p.1
        let attrName :=
          if attributes.length = 1 then "content"
          else if attributes.length = 2 then attributes.getD 0 ""
          else if attributes.length > 2 then attributes.getD 0 ""
          else ""
        let state :=
          if attributes.length = 1 then STATE_GLOBAL
          else if attributes.length = 2 then STATE_GLOBAL
          else if attributes.length > 2 then attributes.getD 1 ""
          else ""
        tableInsert tbl state attrName p.2
      else tbl)
    []

/-- Embeds `mapAttributeStateProperty`: groups `toggle` active-attributes by
attribute then state, throwing `toggleMissingStateAndProperty` unless the
name splits into exactly 3 segments.  The thrown error aborts the whole
table build, which the `Except` monad models. -/
def mapAttributeStateProperty (attributeValue : List (String × String)) :
    Except String (List (String × List (String × String))) :=
  attributeValue.foldl
    (fun acc p =>
      match acc with
      | .error e => .error e
      | .ok tbl =>
          if strEndsWith p.1 DATA_TOGGLE_ATTRIBUTE then
            let attributes := splitOnChar '.' p.1
            if attributes.length = 3 then
              .ok (tableInsert tbl (attributes.getD 0 "") (attributes.getD 1 "") p.2)
            else .error toggleMissingStateAndProperty
          else .ok tbl)
    (.ok [])

/-- Embeds `populateActiveAttributeValue`: splits a node's attribute list into
the active attributes (name contains one of the `watch`/`action`/`toggle`
substrings; these are removed from the element) and the attributes left on
the element. -/
def populateActiveAttributeValue (attrs : List (String × String)) :
    List (String × String) × List (String × String) :=
  (attrs.filter
      (fun p => contains p.1 [DATA_WATCH_ATTRIBUTE, DATA_ACTION_ATTRIBUTE, DATA_TOGGLE_ATTRIBUTE]),
   attrs.filter
      (fun p => !contains p.1 [DATA_WATCH_ATTRIBUTE, DATA_ACTION_ATTRIBUTE, DATA_TOGGLE_ATTRIBUTE]))

/-- Embeds `populateDefaultAttributeValue`, which reads whatever attributes
remain on the element after the active attributes were stripped. -/
def populateDefaultAttributeValue (attrs : List (String × String)) :
    List (String × String) := attrs

/-- Dispatch tables and attribute snapshots built by the `AttributeEvaluator`
constructor. -/
structure EvaluatorTables where
  activeAttributeValue : List (String × String)
  defaultAttributeValue : List (String × String)
  eventStateAction : List (String × List (String × String))
  stateAttributeProperty : List (String × List (String × String))
  attributeStateProperty : List (String × List (String × String))
deriving DecidableEq

/-- Embeds the `AttributeEvaluator` constructor pipeline on one node's
attribute list; a `GrammarError` thrown by `mapAttributeStateProperty`
aborts the construction. -/
def buildAttributeEvaluator (attrs : List (String × String)) :
    Except String EvaluatorTables :=
  let pair := populateActiveAttributeValue attrs
  let active := pair.1
  let defaults := populateDefaultAttributeValue pair.2
  match mapAttributeStateProperty active with
  | .error e => .error e
  | .ok asp =>
      .ok ⟨active, defaults, mapEventStateAction active, mapStateAttributeProperty active, asp⟩

/-- Property read `v[seg]` inside a generated `data.${prop}` expression:
reading a property of `undefined` or `null` throws a `TypeError`; a missing
property of an object, or any property of another primitive, is
`undefined`. -/
def getMember : JSValue → String → Except Unit JSValue
  | .undefined, _ => .error ()
  | .null, _ => .error ()
  | .obj fields, name => .ok (jsFieldsLookup fields name)
  | _, _ => .ok .undefined

/-- Evaluates the body `return data.${prop}` of the function built by
`extractValue`: walks the dotted segments; an empty segment is the
`SyntaxError` thrown by the `Function` constructor on a malformed path. -/
def evalPathGet : JSValue → List String → Except Unit JSValue
  | v, [] => .ok v
  | v, seg :: rest =>
      if seg = "" then .error ()
      else
        match getMember v seg with
        | .error e => .error e
        | .ok v2 => evalPathGet v2 rest

/-- Property write `v[seg] = value`: throws on `undefined`/`null`, updates an
object, and silently ignores the write on another primitive (sloppy-mode
semantics of the generated function body). -/
def setMember : JSValue → String → JSValue → Except Unit JSValue
  | .undefined, _, _ => .error ()
  | .null, _, _ => .error ()
  | .obj fields, name, v => .ok (.obj (jsFieldsSet fields name v))
  | prim, _, _ => .ok prim

/-- Evaluates the body `data.${prop} = value` of the function built by
`injectValue`, returning the updated data (the source mutates in place; the
embedding passes the object functionally). -/
def setPath : JSValue → List String → JSValue → Except Unit JSValue
  | _, [], _ => .error ()
  | v, [seg], value => if seg = "" then .error () else setMember v seg value
  | v, seg :: rest, value =>
      if seg = "" then .error ()
      else
        match getMember v seg with
        | .error e => .error e
        | .ok m =>
            match setPath m rest value with
            | .error e => .error e
            | .ok m2 => setMember v seg m2

/-- Embeds `extractValue(data, prop)`.  The second component records whether
`console.warn` fired: the data itself is returned unchanged when it has no
value; an evaluation failure is caught, warned about, and yields `null`. -/
def extractValue (data : JSValue) (prop : String) : JSValue × Bool :=
  if hasNoValue data then (data, false)
  else
    match evalPathGet data (splitOnChar '.' prop) with
    | .ok v => (v, false)
    | .error _ => (JSValue.null, true)

/-- Embeds `injectValue(data, prop, value)`.  Returns the (possibly updated)
data together with a flag recording whether `console.warn` fired: when the
data has no value the function returns immediately without warning; an
evaluation failure is caught and warned about, leaving the data unchanged. -/
def injectValue (data : JSValue) (prop : String) (value : JSValue) : JSValue × Bool :=
  if hasNoValue data then (data, false)
  else
    match setPath data (splitOnChar '.' prop) value with
    | .ok d => (d, false)
    | .error _ => (data, true)

/-- Observable state of one bound DOM node: its live attributes, the set of
names that exist as JavaScript properties on it, the values assigned to
those properties, the installed `<attr>Changed` callbacks (recorded as the
data path each callback writes back into), and its inner markup. -/
structure Elem where
  attrs : List (String × String)
  props : List String
  propVals : List (String × JSValue)
  callbacks : List (String × String)
  innerHTML : String
deriving DecidableEq

/-- Embeds `a || b` where both operands are either a `Map` (always truthy)
or `undefined`, as in the table-selection expressions of the source. -/
def jsOrOpt {α : Type} (a b : Option α) : Option α :=
  match a with
  | some x => some x
  | none => b

/-- Embeds the body of the `attributeProps.forEach` loop of
`updateWatchAttribute` for a single `(attribute, property)` entry: a
`setAttribute` unless the name is reserved, a property mirror plus
`<attribute>Changed` callback when the name exists as a node property, and
an `innerHTML` assignment when the name is literally `content`. -/
def watchStep (data : JSValue) (el : Elem) (entry : String × String) : Elem :=
  let attrName := entry.1
  let property := entry.2
  let val := (extractValue data property).1
  let el1 :=
    if isValidAttribute attrName then
      { el with attrs := aset el.attrs attrName (jsToString val) }
    else el
  let el2 :=
    if el1.props.contains attrName then
      { el1 with
        propVals := aset el1.propVals attrName val,
        callbacks := aset el1.callbacks (composeChangeEventName attrName) property,
        props :=
          if el1.props.contains (composeChangeEventName attrName) then el1.props
          else el1.props ++ [composeChangeEventName attrName] }
    else el1
  if attrName = "content" then { el2 with innerHTML := jsToString val } else el2

/-- Embeds `updateWatchAttribute(element, stateAttributeProperty,
dataGetterValue, dataState)`: selects the attribute table for the exact
state, else the global-sentinel table (`get(dataState) ||
get(STATE_GLOBAL)`; a present `Map` is always truthy), and returns the
element unchanged when neither exists. -/
def updateWatchAttribute (el : Elem)
    (stateAttributeProperty : List (String × List (String × String)))
    (data : JSValue) (dataState : JSValue) : Elem :=
  match jsOrOpt (mget stateAttributeProperty dataState)
      (slookup stateAttributeProperty STATE_GLOBAL) with
  | none => el
  | some attributeProps => attributeProps.foldl (watchStep data) el

/-- Embeds the body of the `attributeStateProperty.forEach` loop of
`updateToggleAttribute` for one `(attribute, stateProperty)` entry. -/
def toggleStep (dataState : JSValue) (defaultAttributeValue : List (String × String))
    (el : Elem) (entry : String × List (String × String)) : Elem :=
  let attrName := entry.1
  let stateProperty := entry.2
  let defaultValue := slookup defaultAttributeValue attrName
  let propertyValue := mget stateProperty dataState
  let attributeValue :=
    (if hasValueStr defaultValue then [defaultValue.getD ""] else []) ++
    (if hasValueStr propertyValue then [propertyValue.getD ""] else [])
  let newAttributeValue := joinSpace attributeValue
  if slookup el.attrs attrName = some newAttributeValue then el
  else { el with attrs := aset el.attrs attrName newAttributeValue }

/-- Embeds `updateToggleAttribute(element, attributeStateProperty, dataState,
defaultAttributeValue)`. -/
def updateToggleAttribute (el : Elem)
    (attributeStateProperty : List (String × List (String × String)))
    (dataState : JSValue) (defaultAttributeValue : List (String × String)) : Elem :=
  attributeStateProperty.foldl (toggleStep dataState defaultAttributeValue) el

/-- Observable outcome of one firing of the listener attached by
`initEventListener`: the three suppression calls made for `submit` events,
and the list of action types the reducer was invoked with (the reducer runs
once per `updateData` call). -/
structure EventOutcome where
  defaultPrevented : Bool
  immediatePropagationStopped : Bool
  propagationStopped : Bool
  reducerCalls : List JSValue
deriving DecidableEq

/-- Embeds `Map.prototype.get` returning `undefined` on a miss, as a
`JSValue`, for the `stateAction.get(dataState) || stateAction.get(STATE_GLOBAL)`
expression. -/
def mapGet (stateAction : List (String × String)) (key : JSValue) : JSValue :=
  match mget stateAction key with
  | some v => .str v
  | none => .undefined

/-- Embeds the event-listener callback installed by `initEventListener` on one
bound element, for an event of type `eventType` firing with current data
`data`: `submit` suppression, the `has(dataState) || has(STATE_GLOBAL)`
guard, and the single reducer invocation with the resolved action type. -/
def initEventListenerHandler (eventType : String)
    (stateAction : List (String × String)) (data : JSValue) : EventOutcome :=
  let isSubmit := eventType = "submit"
  let dataState := jsGetField data STATE_PROPERTY
  if (mget stateAction dataState).isSome || (slookup stateAction STATE_GLOBAL).isSome then
    ⟨isSubmit, isSubmit, isSubmit,
      [jsOr (mapGet stateAction dataState) (mapGet stateAction (.str STATE_GLOBAL))]⟩
  else
    ⟨isSubmit, isSubmit, isSubmit, []⟩

/-- Template-side DOM tree used by the active-node scanner: a text node or an
element with a tag, attributes, and child nodes. -/
inductive DomNode where
  | text (s : String) : DomNode
  | elem (tag : String) (attrs : List (String × String)) (children : List DomNode) : DomNode

/-- Embeds the filter `noEmptyTextNode`: keeps a text node only if it has a
non-whitespace character. -/
def noEmptyTextNode : DomNode → Bool
  | .text s => s.toList.any (fun c => !c.isWhitespace)
  | _ => true

/-- Embeds `activeNodesLookup(attributesSuffix, nodes)`: collects the elements
carrying at least one attribute whose name contains one of the suffix
strings, recursing into children except below the two component tags.  The
source accumulates into a `Set` of node identities; the embedding returns
the collected nodes in the same discovery order. -/
def activeNodesLookup (attributesSuffix : List String) (nodes : List DomNode) :
    List DomNode :=
  match nodes with
  | [] => []
  | node :: rest =>
      let tail := activeNodesLookup attributesSuffix rest
      match node with
      | .text _ => tail
      | .elem tag attrs children =>
          let self := if attrs.any (fun p => contains p.1 attributesSuffix) then [node] else []
          let inner :=
            if !contains (strToUpper tag)
                [strToUpper ARRAY_CONTEXT_ELEMENT_TAG_NAME, strToUpper CONTEXT_ELEMENT_TAG_NAME] then
              activeNodesLookup attributesSuffix children
            else []
          self ++ inner ++ tail
termination_by sizeOf nodes
decreasing_by
  all_goals simp_wf
  all_goals omega

/-- DataSnapshot passed by the array reconciler to one item's renderer:
`{ data, key, index }`. -/
structure Snapshot where
  data : JSValue
  key : JSValue
  index : Nat
deriving DecidableEq

/-- State of one `ArrayContextElement`: the keyed renderer registry (a `Map`
in insertion order, each renderer represented by the list of its cloned
root-node identifiers), the host's child-node list, a counter from which
fresh node identifiers are allocated by cloning, and the number of root
nodes in the template. -/
structure ACE where
  renderers : List (JSValue × List Nat)
  children : List Nat
  fresh : Nat
  templateLen : Nat
deriving DecidableEq

/-- Registry read, modelling `renderers.get(key)` (keys compared by value;
the data keys of interest are primitives, for which JavaScript `Map`
equality agrees). -/
def rlookup : List (JSValue × List Nat) → JSValue → Option (List Nat)
  | [], _ => none
  | (k, ns) :: rest, key => if k = key then some ns else rlookup rest key

/-- Key list of the registry, modelling `Array.from(renderers.keys())`. -/
def rkeys (r : List (JSValue × List Nat)) : List JSValue := r.map (·.1)

/-- Root-node list of the renderer registered under a key (empty when the key
is absent). -/
def nodesFor (r : List (JSValue × List Nat)) (k : JSValue) : List Nat :=
  (rlookup r k).getD []

/-- Registry entry removal, modelling `renderers.delete(key)`. -/
def eraseKey (r : List (JSValue × List Nat)) (k : JSValue) :
    List (JSValue × List Nat) :=
  r.filter (fun e => decide (e.1 ≠ k))

/-- Inserts `n` immediately before the first occurrence of `a` (appending when
`a` is absent; in every use below the anchor is present). -/
def insertAt : List Nat → Nat → Nat → List Nat
  | [], n, _ => [n]
  | c :: cs, n, a => if c = a then n :: c :: cs else c :: insertAt cs n a

/-- Embeds `parent.insertBefore(node, anchor)` on a child list: a node already
in the tree is first removed from its old position. -/
def insertBefore (cs : List Nat) (n a : Nat) : List Nat := insertAt (cs.erase n) n a

/-- Embeds `anchor.previousSibling` on a child list (the element just before
the first occurrence of the anchor, if any). -/
def prevSibling : List Nat → Nat → Option Nat
  | [], _ => none
  | [_], _ => none
  | c :: d :: rest, a =>
      if c = a then none
      else if d = a then some c else prevSibling (d :: rest) a

/-- Embeds the inner `for (const node of reversedNodes)` loop of
`ArrayContextElement.render`: each node is re-homed immediately before the
moving anchor unless it already immediately precedes it, and then becomes
the new anchor. -/
def placeNodes : List Nat → Nat → List Nat → List Nat × Nat
  | [], a, cs => (cs, a)
  | n :: rest, a, cs =>
      let cs2 := if prevSibling cs a = some n then cs else insertBefore cs n a
      placeNodes rest n cs2

/-- Embeds `dataSource.map(data => this.dataKeyPicker(data))` with a picker
that can throw (the thrown error propagates, which `Except` models). -/
def exceptMapKeys (picker : JSValue → Except String JSValue) :
    List JSValue → Except String (List JSValue)
  | [] => .ok []
  | d :: rest =>
      match picker d with
      | .error e => .error e
      | .ok k =>
          match exceptMapKeys picker rest with
          | .error e => .error e
          | .ok ks => .ok (k :: ks)

/-- Embeds the body of the `discardedKeys.forEach` loop of
`removeExpiredData`: removes the discarded renderer's root nodes from the
document and deletes its registry entry. -/
def discardRenderer (acc : List (JSValue × List Nat) × List Nat) (k : JSValue) :
    List (JSValue × List Nat) × List Nat :=
  let nodes := nodesFor acc.1 k
  (eraseKey acc.1 k, acc.2.filter (fun c => decide (c ∉ nodes)))

/-- Embeds `ArrayContextElement.removeExpiredData`: every previously
registered key missing from the current pass's key list has its nodes
removed and its entry deleted. -/
def removeExpiredData (picker : JSValue → Except String JSValue)
    (dataSource : List JSValue) (st : ACE) : Except String ACE :=
  match exceptMapKeys picker dataSource with
  | .error e => .error e
  | .ok dataSourceKeys =>
      let prevKeys := rkeys st.renderers
      let discardedKeys := prevKeys.filter (fun k => decide (k ∉ dataSourceKeys))
      let res := discardedKeys.foldl discardRenderer (st.renderers, st.children)
      .ok { st with renderers := res.1, children := res.2 }

/-- Embeds the `[...dataSource].reverse().forEach((data, index) => ...)` loop
of `ArrayContextElement.render`: per item, get-or-create the renderer
(cloning `templateLen` fresh root nodes on first sight of the key), re-home
its root nodes before the moving anchor, and record the snapshot
`{ data, key, index: dpLength - index }` passed to the item's renderer. -/
def renderItems (picker : JSValue → Except String JSValue) (items : List JSValue)
    (idx dpLength anchorNode : Nat) (st : ACE) (snaps : List Snapshot) :
    Except String (ACE × Nat × List Snapshot) :=
  match items with
  | [] => .ok (st, anchorNode, snaps)
  | data :: rest =>
      match picker data with
      | .error e => .error e
      | .ok dataKey =>
          let st1 :=
            if (rlookup st.renderers dataKey).isSome then st
            else
              { st with
                renderers :=
                  st.renderers ++ [(dataKey, (List.range st.templateLen).map (fun i => st.fresh + i))],
                fresh := st.fresh + st.templateLen }
          let nodes := nodesFor st1.renderers dataKey
          let placed := placeNodes nodes.reverse anchorNode st1.children
          renderItems picker rest (idx + 1) dpLength placed.2
            { st1 with children := placed.1 }
            (snaps ++ [⟨data, dataKey, dpLength - idx⟩])

/-- Embeds `ArrayContextElement.render` (one full array-mode render pass):
evict expired keys, append a fresh `template` element as the initial
anchor, walk the data in reverse re-homing nodes before the moving anchor,
then remove the anchor again (`this.lastChild.remove()`).  Returns the
final state together with the snapshots passed to the per-item
renderers, in invocation order. -/
def arrayContextElementRender (picker : JSValue → Except String JSValue)
    (dataSource : List JSValue) (st : ACE) : Except String (ACE × List Snapshot) :=
  match removeExpiredData picker dataSource st with
  | .error e => .error e
  | .ok st1 =>
      let anchorNode := st1.fresh
      let st2 := { st1 with children := st1.children ++ [anchorNode], fresh := st1.fresh + 1 }
      let dpLength := dataSource.length - 1
      match renderItems picker dataSource.reverse 0 dpLength anchorNode st2 [] with
      | .error e => .error e
      | .ok (st3, _, snaps) => .ok ({ st3 with children := st3.children.dropLast }, snaps)

/-- Embeds `defaultDataKeyPicker`: throws the `data.key` configuration error
when no key field was declared (`dataKeyField` is `null` from a missing
`getAttribute` or otherwise has no value), else reads `data[dataKeyField]`. -/
def defaultDataKeyPicker (dataKeyField : Option String) (data : JSValue) :
    Except String JSValue :=
  if hasValueStr dataKeyField = false then .error arrayContextElementMissingDataKey
  else
    match getMember data (dataKeyField.getD "") with
    | .ok v => .ok v
    | .error _ => .error "TypeError"

/-- Specification helper: the snapshots an array render pass emits, in
invocation (reverse) order; the item followed by `k` remaining items
receives index `k`. -/
def revSnaps (keyOf : JSValue → JSValue) : List JSValue → List Snapshot
  | [] => []
  | d :: rest => ⟨d, keyOf d, rest.length⟩ :: revSnaps keyOf rest

/-- Specification helper: concatenation of the root-node lists of the
renderers of the given items, in the order given. -/
def nodesConcat (r : List (JSValue × List Nat)) (keyOf : JSValue → JSValue)
    (l : List JSValue) : List Nat :=
  (l.map (fun d => nodesFor r (keyOf d))).flatten

/-- Well-formedness of an `ArrayContextElement` state: registry keys are
distinct, each renderer's root-node list is duplicate-free, renderers with
different keys own disjoint node lists, the child list is duplicate-free,
and every node identifier in play is below the freshness counter. -/
def wellFormed (st : ACE) : Prop :=
  (rkeys st.renderers).Nodup
  ∧ (∀ e ∈ st.renderers, e.2.Nodup ∧ ∀ n ∈ e.2, n < st.fresh)
  ∧ (∀ e1 ∈ st.renderers, ∀ e2 ∈ st.renderers, e1.1 ≠ e2.1 → ∀ n ∈ e1.2, n ∉ e2.2)
  ∧ st.children.Nodup
  ∧ (∀ c ∈ st.children, c < st.fresh)

instance wellFormedDecidable (st : ACE) : Decidable (wellFormed st) := by
  unfold wellFormed
  infer_instance

theorem splitOnCharAux_length_pos (c : Char) (l acc : List Char) :
    0 < (splitOnCharAux c l acc).length := by
  induction l generalizing acc with
  | nil => simp [splitOnCharAux]
  | cons x xs ih =>
      simp only [splitOnCharAux]
      split
      · simp
      · exact ih _

theorem splitOnChar_length_pos (c : Char) (s : String) :
    0 < (splitOnChar c s).length :=
  splitOnCharAux_length_pos c s.toList []

theorem foldl_or_eq_any {α : Type} (p : α → Bool) (l : List α) (b : Bool) :
    l.foldl (fun acc t => acc || p t) b = (b || l.any p) := by
  induction l generalizing b with
  | nil => simp
  | cons x xs ih =>
      rw [List.foldl_cons, ih, List.any_cons]
      cases b <;> cases p x <;> simp

theorem contains_eq_any (text : String) (texts : List String) :
    contains text texts = texts.any (fun t => strIndexOfNonneg text t) := by
  unfold contains
  rw [foldl_or_eq_any]
  simp

theorem strIndexOfNonneg_of_strEndsWith {s sfx : String}
    (h : strEndsWith s sfx = true) : strIndexOfNonneg s sfx = true := by
  unfold strEndsWith at h
  unfold strIndexOfNonneg isSubstringOf
  exact List.any_of_mem ((List.mem_tails _ _).mpr (List.isSuffixOf_iff_suffix.mp h))
    (List.isPrefixOf_iff_prefix.mpr (List.prefix_refl _))

theorem contains_of_strEndsWith {s sfx : String} {texts : List String}
    (hmem : sfx ∈ texts) (h : strEndsWith s sfx = true) :
    contains s texts = true := by
  rw [contains_eq_any]
  exact List.any_of_mem hmem (strIndexOfNonneg_of_strEndsWith h)

theorem slookup_aset_self {α : Type} (l : List (String × α)) (k : String) (v : α) :
    slookup (aset l k v) k = some v := by
  induction l with
  | nil => simp [aset, slookup]
  | cons p rest ih =>
      by_cases h : p.1 = k
      · simp [aset, slookup, h]
      · simp [aset, slookup, h, ih]

/-- C7: parsing of `watch` and `action` attribute names is total and
deterministic (both mappers are total Lean functions, so the same name
always produces the same binding); the arity is derived purely from
splitting on `.`: one segment gives the default attribute/event
(`content` for watch, `click` for action) and the global-sentinel state,
two segments give an explicit attribute/event with the global state, and
three or more segments give attribute/event = first segment and
state = second segment. -/
theorem c7_watch_action_parse_arity (name value : String) :
    (strEndsWith name DATA_WATCH_ATTRIBUTE = true →
      ((splitOnChar '.' name).length = 1 →
        mapStateAttributeProperty [(name, value)] = [(STATE_GLOBAL, [("content", value)])])
      ∧ ((splitOnChar '.' name).length = 2 →
        mapStateAttributeProperty [(name, value)] =
          [(STATE_GLOBAL, [((splitOnChar '.' name).getD 0 "", value)])])
      ∧ (2 < (splitOnChar '.' name).length →
        mapStateAttributeProperty [(name, value)] =
          [((splitOnChar '.' name).getD 1 "", [((splitOnChar '.' name).getD 0 "", value)])]))
    ∧ (strEndsWith name DATA_ACTION_ATTRIBUTE = true →
      ((splitOnChar '.' name).length = 1 →
        mapEventStateAction [(name, value)] = [("click", [(STATE_GLOBAL, value)])])
      ∧ ((splitOnChar '.' name).length = 2 →
        mapEventStateAction [(name, value)] =
          [((splitOnChar '.' name).getD 0 "", [(STATE_GLOBAL, value)])])
      ∧ (2 < (splitOnChar '.' name).length →
        mapEventStateAction [(name, value)] =
          [((splitOnChar '.' name).getD 0 "", [((splitOnChar '.' name).getD 1 "", value)])])) := by
  constructor
  · intro hw
    refine ⟨?_, ?_, ?_⟩ <;> intro hl
    · simp [mapStateAttributeProperty, hw, hl, tableInsert, slookup]
    · simp [mapStateAttributeProperty, hw, hl, tableInsert, slookup]
    · have h1 : (splitOnChar '.' name).length ≠ 1 := by omega
      have h2 : (splitOnChar '.' name).length ≠ 2 := by omega
      simp [mapStateAttributeProperty, hw, h1, h2, hl, tableInsert, slookup]
  · intro ha
    refine ⟨?_, ?_, ?_⟩ <;> intro hl
    · simp [mapEventStateAction, ha, hl, tableInsert, slookup]
    · simp [mapEventStateAction, ha, hl, tableInsert, slookup]
    · have h1 : (splitOnChar '.' name).length ≠ 1 := by omega
      have h2 : (splitOnChar '.' name).length ≠ 2 := by omega
      simp [mapEventStateAction, ha, h1, h2, hl, tableInsert, slookup]

theorem c7_watch_action_parse_arity_witness :
    strEndsWith "cls.active.watch" DATA_WATCH_ATTRIBUTE = true
    ∧ 2 < (splitOnChar '.' "cls.active.watch").length
    ∧ mapStateAttributeProperty [("cls.active.watch", "prop")] =
        [("active", [("cls", "prop")])]
    ∧ strEndsWith "action" DATA_ACTION_ATTRIBUTE = true
    ∧ mapEventStateAction [("action", "DO")] = [("click", [("*", "DO")])] := by
  refine ⟨by decide, by decide, ?_, by decide, ?_⟩
  · have h :=
      ((c7_watch_action_parse_arity "cls.active.watch" "prop").1 (by decide)).2.2 (by decide)
    rw [h]
    decide
  · have h :=
      ((c7_watch_action_parse_arity "action" "DO").2 (by decide)).1 (by decide)
    rw [h]
    decide

/-- C6 (amended): for every attribute name that ends in the toggle suffix,
binding-table construction throws the toggle grammar error synchronously
(aborting the `AttributeEvaluator` construction for that node) whenever
splitting the name on `.` yields a segment count different from 3, and
with exactly 3 segments it produces a toggle binding with attribute =
first segment and state = second segment.  (The claim's example `"x.y"`
does not end in the toggle suffix, is never seen by the toggle-table
builder, and raises nothing; a faithful 2-segment example is
`"x.toggle"`.) -/
theorem c6_toggle_arity (name value : String)
    (htog : strEndsWith name DATA_TOGGLE_ATTRIBUTE = true) :
    ((splitOnChar '.' name).length = 3 →
      mapAttributeStateProperty [(name, value)] =
        .ok [((splitOnChar '.' name).getD 0 "", [((splitOnChar '.' name).getD 1 "", value)])])
    ∧ ((splitOnChar '.' name).length ≠ 3 →
      mapAttributeStateProperty [(name, value)] = .error toggleMissingStateAndProperty
      ∧ buildAttributeEvaluator [(name, value)] = .error toggleMissingStateAndProperty) := by
  constructor
  · intro hl
    simp [mapAttributeStateProperty, htog, hl, tableInsert, slookup]
  · intro hl
    have herr : mapAttributeStateProperty [(name, value)] =
        .error toggleMissingStateAndProperty := by
      simp [mapAttributeStateProperty, htog, hl]
    refine ⟨herr, ?_⟩
    have hc : contains name
        [DATA_WATCH_ATTRIBUTE, DATA_ACTION_ATTRIBUTE, DATA_TOGGLE_ATTRIBUTE] = true :=
      contains_of_strEndsWith (by simp) htog
    simp [buildAttributeEvaluator, populateActiveAttributeValue, hc, herr]

/-- C6 counterexample: the attribute name `"x.y"` (2 segments) does not raise
the toggle-arity error as the claim states; it does not end in the toggle
suffix, so the toggle-table builder ignores it entirely and returns an
empty table. -/
theorem c6_toggle_arity_counterexample :
    mapAttributeStateProperty [("x.y", "v")] = .ok []
    ∧ (Except.ok ([] : List (String × List (String × String))) : Except String _) ≠
        .error toggleMissingStateAndProperty := by
  constructor
  · decide
  · simp

theorem c6_toggle_arity_witness :
    strEndsWith "cls.active.toggle" DATA_TOGGLE_ATTRIBUTE = true
    ∧ (splitOnChar '.' "cls.active.toggle").length = 3
    ∧ mapAttributeStateProperty [("cls.active.toggle", "hot")] =
        .ok [("cls", [("active", "hot")])]
    ∧ strEndsWith "x.toggle" DATA_TOGGLE_ATTRIBUTE = true
    ∧ (splitOnChar '.' "x.toggle").length ≠ 3
    ∧ mapAttributeStateProperty [("x.toggle", "v")] = .error toggleMissingStateAndProperty
    ∧ buildAttributeEvaluator [("x.toggle", "v")] = .error toggleMissingStateAndProperty := by
  refine ⟨by decide, by decide, ?_, by decide, by decide, ?_, ?_⟩
  · have h := (c6_toggle_arity "cls.active.toggle" "hot" (by decide)).1 (by decide)
    rw [h]
    decide
  · exact ((c6_toggle_arity "x.toggle" "v" (by decide)).2 (by decide)).1
  · exact ((c6_toggle_arity "x.toggle" "v" (by decide)).2 (by decide)).2

/-- C10 (amended): an attribute is recognized as a binding attribute — its
element collected by the scanner and the attribute stripped from the live
node, leaving the remaining attributes as the default snapshot — exactly
when its name CONTAINS one of the recognized substrings `watch`, `toggle`,
`action` (the source tests `name.indexOf(sfx) >= 0`, not a suffix match);
an attribute whose name contains none of them is left on the node and
captured as a default attribute. -/
theorem c10_binding_attribute_recognition :
    (∀ (attrs : List (String × String)) (n v : String),
      ((n, v) ∈ (populateActiveAttributeValue attrs).1 ↔
        (n, v) ∈ attrs ∧
          contains n [DATA_WATCH_ATTRIBUTE, DATA_ACTION_ATTRIBUTE, DATA_TOGGLE_ATTRIBUTE] = true)
      ∧ ((n, v) ∈ (populateActiveAttributeValue attrs).2 ↔
        (n, v) ∈ attrs ∧
          contains n [DATA_WATCH_ATTRIBUTE, DATA_ACTION_ATTRIBUTE, DATA_TOGGLE_ATTRIBUTE] = false))
    ∧ (∀ (tag : String) (attrs : List (String × String)),
      activeNodesLookup [DATA_WATCH_ATTRIBUTE, DATA_ACTION_ATTRIBUTE, DATA_TOGGLE_ATTRIBUTE]
          [DomNode.elem tag attrs []] =
        if attrs.any (fun p =>
            contains p.1 [DATA_WATCH_ATTRIBUTE, DATA_ACTION_ATTRIBUTE, DATA_TOGGLE_ATTRIBUTE]) then
          [DomNode.elem tag attrs []]
        else [])
    ∧ (∀ (attrs : List (String × String)) (tables : EvaluatorTables),
      buildAttributeEvaluator attrs = .ok tables →
      tables.defaultAttributeValue =
        attrs.filter (fun p =>
          !contains p.1 [DATA_WATCH_ATTRIBUTE, DATA_ACTION_ATTRIBUTE, DATA_TOGGLE_ATTRIBUTE])) := by
  refine ⟨?_, ?_, ?_⟩
  · intro attrs n v
    constructor
    · simp [populateActiveAttributeValue, List.mem_filter]
    · simp [populateActiveAttributeValue, List.mem_filter]
  · intro tag attrs
    by_cases h : attrs.any (fun p =>
        contains p.1 [DATA_WATCH_ATTRIBUTE, DATA_ACTION_ATTRIBUTE, DATA_TOGGLE_ATTRIBUTE]) = true
    · simp [activeNodesLookup, h]
    · simp only [Bool.not_eq_true] at h
      simp [activeNodesLookup, h]
  · intro attrs tables h
    simp only [buildAttributeEvaluator] at h
    cases heq : mapAttributeStateProperty (populateActiveAttributeValue attrs).1 with
    | error e => rw [heq] at h; cases h
    | ok asp =>
        rw [heq] at h
        injection h with h2
        subst h2
        simp [populateDefaultAttributeValue, populateActiveAttributeValue]

/-- C10 counterexample: the attribute name `watcher` does not end in any of
the recognized suffixes, yet it is stripped from the node and treated as a
binding attribute, because the recognizer is a substring test; this
refutes the claim's "exactly when its name ends in a recognized suffix". -/
theorem c10_binding_attribute_recognition_counterexample :
    populateActiveAttributeValue [("watcher", "x")] = ([("watcher", "x")], [])
    ∧ strEndsWith "watcher" DATA_WATCH_ATTRIBUTE = false
    ∧ strEndsWith "watcher" DATA_ACTION_ATTRIBUTE = false
    ∧ strEndsWith "watcher" DATA_TOGGLE_ATTRIBUTE = false := by
  refine ⟨by decide, by decide, by decide, by decide⟩

theorem c10_binding_attribute_recognition_witness :
    buildAttributeEvaluator [("class", "base"), ("name.watch", "name")] =
      .ok ⟨[("name.watch", "name")], [("class", "base")], [],
        [("*", [("name", "name")])], []⟩
    ∧ (⟨[("name.watch", "name")], [("class", "base")], [],
        [("*", [("name", "name")])], []⟩ : EvaluatorTables).defaultAttributeValue =
      [("class", "base")] := by
  constructor
  · decide
  · have h := c10_binding_attribute_recognition.2.2
      [("class", "base"), ("name.watch", "name")]
      ⟨[("name.watch", "name")], [("class", "base")], [], [("*", [("name", "name")])], []⟩
      (by decide)
    rw [h]
    decide

/-- C9: in array mode with no declared key field (`getAttribute('data.key')`
returned `null`, modelled as `none`), the default key extractor throws the
error naming the `data.key` requirement on every invocation; a render pass
over non-empty data therefore fails at the first key lookup (inside
`removeExpiredData`, before any reconciliation), while a pass that never
invokes the extractor (empty data) completes without error — the failure
is at first key lookup, not at construction, and not silent. -/
theorem c9_missing_data_key :
    (∀ data : JSValue, defaultDataKeyPicker none data = .error arrayContextElementMissingDataKey)
    ∧ (∀ data : JSValue,
        defaultDataKeyPicker (some "") data = .error arrayContextElementMissingDataKey)
    ∧ (∀ (f : String) (fields : JSFields), f ≠ "" →
        defaultDataKeyPicker (some f) (.obj fields) = .ok (jsFieldsLookup fields f))
    ∧ (∀ (st : ACE) (d : JSValue) (rest : List JSValue),
        arrayContextElementRender (defaultDataKeyPicker none) (d :: rest) st =
          .error arrayContextElementMissingDataKey)
    ∧ (∀ st : ACE, ∃ st2 : ACE,
        arrayContextElementRender (defaultDataKeyPicker none) [] st = .ok (st2, []))
    ∧ strIndexOfNonneg arrayContextElementMissingDataKey DATA_KEY_ATTRIBUTE = true := by
  have hone : ∀ data : JSValue,
      defaultDataKeyPicker none data = .error arrayContextElementMissingDataKey := by
    intro data
    rfl
  refine ⟨hone, ?_, ?_, ?_, ?_, by decide⟩
  · intro data
    rfl
  · intro f fields hf
    simp [defaultDataKeyPicker, hasValueStr, hf, getMember]
  · intro st d rest
    simp [arrayContextElementRender, removeExpiredData, exceptMapKeys, hone d]
  · intro st
    exact ⟨_, rfl⟩

theorem c9_missing_data_key_witness :
    ("id" : String) ≠ ""
    ∧ defaultDataKeyPicker (some "id") (.obj (.cons "id" (.num 7) .nil)) = .ok (.num 7) := by
  refine ⟨by decide, ?_⟩
  have h := c9_missing_data_key.2.2.1 "id" (.cons "id" (.num 7) .nil) (by decide)
  rw [h]
  decide

/-- C8 (amended): path evaluation is non-fatal in every failure mode.
`extractValue` returns the data value itself unchanged (without warning)
when the data is `undefined`, `null` or the empty string; when evaluating
the dotted path throws (for example a non-existent property chain), the
failure is caught, a warning is logged, and `extractValue` returns `null`.
`injectValue` is a no-op under the same failure conditions, but logs a
warning only when the path evaluation throws: when the data is
`undefined`/`null`/empty-string it returns silently, without a warning.
Rendering of other bindings continues unaffected (the watch pass still
processes the remaining entries after a failing one). -/
theorem c8_path_evaluation_nonfatal :
    (∀ (data : JSValue) (prop : String), hasNoValue data = true →
      extractValue data prop = (data, false))
    ∧ (∀ (data : JSValue) (prop : String), hasNoValue data = false →
        evalPathGet data (splitOnChar '.' prop) = .error () →
        extractValue data prop = (JSValue.null, true))
    ∧ (∀ (data : JSValue) (prop : String) (v : JSValue), hasNoValue data = false →
        evalPathGet data (splitOnChar '.' prop) = .ok v →
        extractValue data prop = (v, false))
    ∧ (∀ (data : JSValue) (prop : String) (value : JSValue), hasNoValue data = true →
        injectValue data prop value = (data, false))
    ∧ (∀ (data : JSValue) (prop : String) (value : JSValue), hasNoValue data = false →
        setPath data (splitOnChar '.' prop) value = .error () →
        injectValue data prop value = (data, true))
    ∧ (∀ (data : JSValue) (prop : String) (value d : JSValue), hasNoValue data = false →
        setPath data (splitOnChar '.' prop) value = .ok d →
        injectValue data prop value = (d, false))
    ∧ extractValue (.obj (.cons "a" (.num 1) .nil)) "a.b.c" = (JSValue.null, true)
    ∧ slookup (updateWatchAttribute ⟨[], [], [], [], ""⟩
        [(STATE_GLOBAL, [("x", "bad.path.q"), ("y", "a")])]
        (.obj (.cons "a" (.num 1) .nil)) .undefined).attrs "y" = some "1" := by
  refine ⟨?_, ?_, ?_, ?_, ?_, ?_, by decide, by decide⟩
  · intro data prop h
    simp [extractValue, h]
  · intro data prop h1 h2
    simp [extractValue, h1, h2]
  · intro data prop v h1 h2
    simp [extractValue, h1, h2]
  · intro data prop value h
    simp [injectValue, h]
  · intro data prop value h1 h2
    simp [injectValue, h1, h2]
  · intro data prop value d h1 h2
    simp [injectValue, h1, h2]

/-- C8 counterexample: `injectValue` on absent data (`undefined`) is a silent
no-op — it logs no warning, contrary to the claim that it is "a no-op that
logs a warning" under the same failure conditions as `extractValue`. -/
theorem c8_path_evaluation_nonfatal_counterexample :
    injectValue JSValue.undefined "a" (JSValue.num 1) = (JSValue.undefined, false)
    ∧ (injectValue JSValue.undefined "a" (JSValue.num 1)).2 ≠ true := by
  refine ⟨by decide, by decide⟩

theorem c8_path_evaluation_nonfatal_witness :
    hasNoValue (JSValue.obj (.cons "a" (.num 1) .nil)) = false
    ∧ evalPathGet (.obj (.cons "a" (.num 1) .nil)) (splitOnChar '.' "a.b.c") = .error ()
    ∧ extractValue (.obj (.cons "a" (.num 1) .nil)) "a.b.c" = (JSValue.null, true)
    ∧ hasNoValue (JSValue.str "") = true
    ∧ injectValue (JSValue.str "") "a" (JSValue.num 1) = (JSValue.str "", false) := by
  refine ⟨by decide, by decide, ?_, by decide, ?_⟩
  · exact c8_path_evaluation_nonfatal.2.1 _ "a.b.c" (by decide) (by decide)
  · exact c8_path_evaluation_nonfatal.2.2.2.1 _ "a" _ (by decide)

theorem mget_str {α : Type} (tbl : List (String × α)) (s : String) :
    mget tbl (.str s) = slookup tbl s := rfl

/-- C5 (amended): when the action listener fires, a `submit` event has its
default prevented and its propagation (immediate and bubbling) stopped,
and any other event type has none of the three suppressions; the action
type is resolved as the exact-state entry when it is present with a
non-empty value, otherwise the global-sentinel entry (the source computes
`get(dataState) || get(STATE_GLOBAL)`, so an empty-string exact entry
falls through to the global one); if neither an exact-state entry nor a
global entry exists the event is ignored silently (reducer not called);
otherwise the reducer is invoked exactly once with the resolved type — in
particular an action type present only under the global sentinel invokes
the reducer exactly once with that type. -/
theorem c5_action_dispatch :
    (∀ (sa : List (String × String)) (data : JSValue),
      (initEventListenerHandler "submit" sa data).defaultPrevented = true
      ∧ (initEventListenerHandler "submit" sa data).immediatePropagationStopped = true
      ∧ (initEventListenerHandler "submit" sa data).propagationStopped = true)
    ∧ (∀ (et : String) (sa : List (String × String)) (data : JSValue), et ≠ "submit" →
      (initEventListenerHandler et sa data).defaultPrevented = false
      ∧ (initEventListenerHandler et sa data).immediatePropagationStopped = false
      ∧ (initEventListenerHandler et sa data).propagationStopped = false)
    ∧ (∀ (et : String) (sa : List (String × String)) (data : JSValue),
      mget sa (jsGetField data STATE_PROPERTY) = none →
      slookup sa STATE_GLOBAL = none →
      (initEventListenerHandler et sa data).reducerCalls = [])
    ∧ (∀ (et : String) (sa : List (String × String)) (data : JSValue),
      ((mget sa (jsGetField data STATE_PROPERTY)).isSome = true
        ∨ (slookup sa STATE_GLOBAL).isSome = true) →
      (initEventListenerHandler et sa data).reducerCalls.length = 1)
    ∧ (∀ (et : String) (sa : List (String × String)) (data : JSValue) (s : String),
      mget sa (jsGetField data STATE_PROPERTY) = some s → s ≠ "" →
      (initEventListenerHandler et sa data).reducerCalls = [.str s])
    ∧ (∀ (et : String) (sa : List (String × String)) (data : JSValue) (g : String),
      mget sa (jsGetField data STATE_PROPERTY) = none →
      slookup sa STATE_GLOBAL = some g →
      (initEventListenerHandler et sa data).reducerCalls = [.str g])
    ∧ (∀ (et : String) (sa : List (String × String)) (data : JSValue) (g : String),
      mget sa (jsGetField data STATE_PROPERTY) = some "" →
      slookup sa STATE_GLOBAL = some g →
      (initEventListenerHandler et sa data).reducerCalls = [.str g]) := by
  refine ⟨?_, ?_, ?_, ?_, ?_, ?_, ?_⟩
  · intro sa data
    refine ⟨?_, ?_, ?_⟩ <;> simp [initEventListenerHandler] <;> split <;> rfl
  · intro et sa data h
    refine ⟨?_, ?_, ?_⟩ <;> simp [initEventListenerHandler, h] <;> split <;> rfl
  · intro et sa data h1 h2
    simp [initEventListenerHandler, h1, h2]
  · intro et sa data h
    rcases h with h | h <;> simp [initEventListenerHandler, h]
  · intro et sa data s h1 h2
    simp [initEventListenerHandler, h1, jsOr, mapGet, truthy, h2]
  · intro et sa data g h1 h2
    simp [initEventListenerHandler, h1, h2, jsOr, mapGet, truthy, mget_str]
  · intro et sa data g h1 h2
    simp [initEventListenerHandler, h1, h2, jsOr, mapGet, truthy, mget_str]

/-- C5 counterexample: with an exact-state entry whose value is the empty
string and a global entry `"GO"`, the claim's resolution order ("looked up
first under the exact state, falling back to global" only when the exact
entry is absent) would dispatch the exact entry `""`; the code dispatches
`"GO"`, because `"" || "GO"` evaluates to `"GO"`. -/
theorem c5_action_dispatch_counterexample :
    (initEventListenerHandler "click" [("s", ""), ("*", "GO")]
        (.obj (.cons "_state" (.str "s") .nil))).reducerCalls = [JSValue.str "GO"]
    ∧ mget [("s", ""), ("*", "GO")]
        (jsGetField (.obj (.cons "_state" (.str "s") .nil)) STATE_PROPERTY) = some ""
    ∧ JSValue.str "GO" ≠ JSValue.str "" := by
  refine ⟨by decide, by decide, by decide⟩

theorem c5_action_dispatch_witness :
    (("doubleclick" : String) ≠ "submit")
    ∧ (initEventListenerHandler "doubleclick" [("*", "GO")]
        (.obj (.cons "_state" (.str "s") .nil))).defaultPrevented = false
    ∧ mget [("*", "GO")] (jsGetField (.obj (.cons "_state" (.str "s") .nil)) STATE_PROPERTY) = none
    ∧ slookup [("*", "GO")] STATE_GLOBAL = some "GO"
    ∧ (initEventListenerHandler "doubleclick" [("*", "GO")]
        (.obj (.cons "_state" (.str "s") .nil))).reducerCalls = [JSValue.str "GO"] := by
  refine ⟨by decide, ?_, by decide, by decide, ?_⟩
  · exact (c5_action_dispatch.2.1 "doubleclick" [("*", "GO")]
      (.obj (.cons "_state" (.str "s") .nil)) (by decide)).1
  · exact c5_action_dispatch.2.2.2.2.2.1 "doubleclick" [("*", "GO")]
      (.obj (.cons "_state" (.str "s") .nil)) "GO" (by decide) (by decide)

/-- C4 (amended): for every toggled attribute the computed value is the
space-joined concatenation of the node's captured default value for that
attribute — included iff present AND non-empty (the source's `hasValue`
check excludes an empty-string default) — followed by the state-specific
value for the data's exact current state — likewise included iff present
and non-empty, with no fallback to the global sentinel; `setAttribute` is
invoked iff the computed string differs from the attribute's current live
value (an unchanged computed value leaves the element untouched). -/
theorem c4_toggle_value_and_write_skip :
    (∀ (ds : JSValue) (defaults : List (String × String)) (el : Elem)
        (attrName : String) (sp : List (String × String)),
      slookup (toggleStep ds defaults el (attrName, sp)).attrs attrName =
        some (joinSpace
          ((if hasValueStr (slookup defaults attrName) then [(slookup defaults attrName).getD ""] else []) ++
           (if hasValueStr (mget sp ds) then [(mget sp ds).getD ""] else []))))
    ∧ (∀ (ds : JSValue) (defaults : List (String × String)) (el : Elem)
        (attrName : String) (sp : List (String × String)),
      slookup el.attrs attrName =
        some (joinSpace
          ((if hasValueStr (slookup defaults attrName) then [(slookup defaults attrName).getD ""] else []) ++
           (if hasValueStr (mget sp ds) then [(mget sp ds).getD ""] else []))) →
      toggleStep ds defaults el (attrName, sp) = el)
    ∧ (∀ (ds : JSValue) (defaults : List (String × String)) (el : Elem)
        (attrName : String) (sp : List (String × String)),
      slookup el.attrs attrName ≠
        some (joinSpace
          ((if hasValueStr (slookup defaults attrName) then [(slookup defaults attrName).getD ""] else []) ++
           (if hasValueStr (mget sp ds) then [(mget sp ds).getD ""] else []))) →
      (toggleStep ds defaults el (attrName, sp)).attrs =
        aset el.attrs attrName
          (joinSpace
            ((if hasValueStr (slookup defaults attrName) then [(slookup defaults attrName).getD ""] else []) ++
             (if hasValueStr (mget sp ds) then [(mget sp ds).getD ""] else []))))
    ∧ (∀ (ds : JSValue) (defaults : List (String × String)) (el : Elem)
        (attrName : String) (sp : List (String × String)),
      updateToggleAttribute el [(attrName, sp)] ds defaults =
        toggleStep ds defaults el (attrName, sp)) := by
  refine ⟨?_, ?_, ?_, ?_⟩
  · intro ds defaults el attrName sp
    by_cases h : slookup el.attrs attrName =
        some (joinSpace
          ((if hasValueStr (slookup defaults attrName) then [(slookup defaults attrName).getD ""] else []) ++
           (if hasValueStr (mget sp ds) then [(mget sp ds).getD ""] else [])))
    · simp [toggleStep, h]
    · simp [toggleStep, h, slookup_aset_self]
  · intro ds defaults el attrName sp h
    simp [toggleStep, h]
  · intro ds defaults el attrName sp h
    simp [toggleStep, h]
  · intro ds defaults el attrName sp
    rfl

/-- C4 counterexample: with a captured default value that is present but
EMPTY (`cls=""`) and state value `"hot"` for the matching state, the claim
("included iff present") predicts the computed value `joinSpace ["", "hot"]
= " hot"`, but the code excludes the empty default via `hasValue` and
writes `"hot"`. -/
theorem c4_toggle_value_and_write_skip_counterexample :
    slookup (updateToggleAttribute ⟨[("cls", "")], [], [], [], ""⟩
        [("cls", [("active", "hot")])] (.str "active") [("cls", "")]).attrs "cls" = some "hot"
    ∧ slookup [("cls", "")] "cls" = some ""
    ∧ joinSpace ["", "hot"] = " hot"
    ∧ ("hot" : String) ≠ " hot" := by
  refine ⟨by decide, by decide, by decide, by decide⟩

theorem c4_toggle_value_and_write_skip_witness :
    slookup (toggleStep (.str "active") [("cls", "base")] ⟨[("cls", "base")], [], [], [], ""⟩
        ("cls", [("active", "hot"), ("*", "glob")])).attrs "cls" = some "base hot"
    ∧ slookup (toggleStep (.str "cold") [("cls", "base")] ⟨[("cls", "base")], [], [], [], ""⟩
        ("cls", [("active", "hot"), ("*", "glob")])).attrs "cls" = some "base"
    ∧ slookup (⟨[("cls", "base hot")], [], [], [], ""⟩ : Elem).attrs "cls" = some "base hot"
    ∧ toggleStep (.str "active") [("cls", "base")] ⟨[("cls", "base hot")], [], [], [], ""⟩
        ("cls", [("active", "hot"), ("*", "glob")]) = ⟨[("cls", "base hot")], [], [], [], ""⟩ := by
  refine ⟨?_, ?_, by decide, ?_⟩
  · have h := c4_toggle_value_and_write_skip.1 (.str "active") [("cls", "base")]
      ⟨[("cls", "base")], [], [], [], ""⟩ "cls" [("active", "hot"), ("*", "glob")]
    rw [h]
    decide
  · have h := c4_toggle_value_and_write_skip.1 (.str "cold") [("cls", "base")]
      ⟨[("cls", "base")], [], [], [], ""⟩ "cls" [("active", "hot"), ("*", "glob")]
    rw [h]
    decide
  · exact c4_toggle_value_and_write_skip.2.1 (.str "active") [("cls", "base")]
      ⟨[("cls", "base hot")], [], [], [], ""⟩ "cls" [("active", "hot"), ("*", "glob")] (by decide)

theorem watchStep_attrs (data : JSValue) (el : Elem) (attrName property : String) :
    (watchStep data el (attrName, property)).attrs =
      (if isValidAttribute attrName then
        aset el.attrs attrName (jsToString (extractValue data property).1)
      else el.attrs) := by
  rcases Decidable.em (attrName = "content") with h3 | h3
  · subst h3
    by_cases h1 : isValidAttribute "content" = true <;>
      by_cases h2 : "content" ∈ el.props <;>
      simp [watchStep, h1, h2]
  · by_cases h1 : isValidAttribute attrName = true <;>
      by_cases h2 : attrName ∈ el.props <;>
      simp [watchStep, h1, h2, h3]

theorem watchStep_propVals (data : JSValue) (el : Elem) (attrName property : String) :
    (watchStep data el (attrName, property)).propVals =
      (if el.props.contains attrName then
        aset el.propVals attrName (extractValue data property).1
      else el.propVals) := by
  rcases Decidable.em (attrName = "content") with h3 | h3
  · subst h3
    by_cases h1 : isValidAttribute "content" = true <;>
      by_cases h2 : "content" ∈ el.props <;>
      simp [watchStep, h1, h2]
  · by_cases h1 : isValidAttribute attrName = true <;>
      by_cases h2 : attrName ∈ el.props <;>
      simp [watchStep, h1, h2, h3]

theorem watchStep_callbacks (data : JSValue) (el : Elem) (attrName property : String) :
    (watchStep data el (attrName, property)).callbacks =
      (if el.props.contains attrName then
        aset el.callbacks (composeChangeEventName attrName) property
      else el.callbacks) := by
  rcases Decidable.em (attrName = "content") with h3 | h3
  · subst h3
    by_cases h1 : isValidAttribute "content" = true <;>
      by_cases h2 : "content" ∈ el.props <;>
      simp [watchStep, h1, h2]
  · by_cases h1 : isValidAttribute attrName = true <;>
      by_cases h2 : attrName ∈ el.props <;>
      simp [watchStep, h1, h2, h3]

theorem watchStep_innerHTML (data : JSValue) (el : Elem) (attrName property : String) :
    (watchStep data el (attrName, property)).innerHTML =
      (if attrName = "content" then jsToString (extractValue data property).1
      else el.innerHTML) := by
  rcases Decidable.em (attrName = "content") with h3 | h3
  · subst h3
    by_cases h1 : isValidAttribute "content" = true <;>
      by_cases h2 : "content" ∈ el.props <;>
      simp [watchStep, h1, h2]
  · by_cases h1 : isValidAttribute attrName = true <;>
      by_cases h2 : attrName ∈ el.props <;>
      simp [watchStep, h1, h2, h3]

/-- C3: the watch pass selects the attribute-to-path table for the data's
exact state field, else the whole global-sentinel table, and leaves the
node entirely unchanged when neither exists; for each (attribute, path)
entry with `v` the value extracted at the path: `setAttribute` fires iff
the attribute is not one of the reserved names `data` and `reducer`; when
the attribute also exists as a property on the node, the property is
additionally assigned `v` and an `<attribute>Changed` callback writing its
argument back into the data at the path is installed; when the attribute
is literally `content`, the inner markup is additionally set; the three
conditions are independent and all that apply fire. -/
theorem c3_watch_pass :
    (∀ (el : Elem) (tbl : List (String × List (String × String))) (data ds : JSValue),
      mget tbl ds = none → slookup tbl STATE_GLOBAL = none →
      updateWatchAttribute el tbl data ds = el)
    ∧ (∀ (el : Elem) (tbl : List (String × List (String × String)))
        (data ds : JSValue) (m : List (String × String)),
      mget tbl ds = some m →
      updateWatchAttribute el tbl data ds = m.foldl (watchStep data) el)
    ∧ (∀ (el : Elem) (tbl : List (String × List (String × String)))
        (data ds : JSValue) (m : List (String × String)),
      mget tbl ds = none → slookup tbl STATE_GLOBAL = some m →
      updateWatchAttribute el tbl data ds = m.foldl (watchStep data) el)
    ∧ (∀ (el : Elem) (data : JSValue) (attrName property : String),
      attrName ≠ "data" → attrName ≠ "reducer" →
      slookup (watchStep data el (attrName, property)).attrs attrName =
        some (jsToString (extractValue data property).1))
    ∧ (∀ (el : Elem) (data : JSValue) (attrName property : String),
      attrName = "data" ∨ attrName = "reducer" →
      (watchStep data el (attrName, property)).attrs = el.attrs)
    ∧ (∀ (el : Elem) (data : JSValue) (attrName property : String),
      el.props.contains attrName = true →
      slookup (watchStep data el (attrName, property)).propVals attrName =
        some (extractValue data property).1
      ∧ slookup (watchStep data el (attrName, property)).callbacks
          (composeChangeEventName attrName) = some property)
    ∧ (∀ (el : Elem) (data : JSValue) (attrName property : String),
      el.props.contains attrName = false →
      (watchStep data el (attrName, property)).propVals = el.propVals
      ∧ (watchStep data el (attrName, property)).callbacks = el.callbacks)
    ∧ (∀ (el : Elem) (data : JSValue) (property : String),
      (watchStep data el ("content", property)).innerHTML =
        jsToString (extractValue data property).1)
    ∧ (∀ (el : Elem) (data : JSValue) (attrName property : String),
      attrName ≠ "content" →
      (watchStep data el (attrName, property)).innerHTML = el.innerHTML) := by
  refine ⟨?_, ?_, ?_, ?_, ?_, ?_, ?_, ?_, ?_⟩
  · intro el tbl data ds h1 h2
    simp [updateWatchAttribute, jsOrOpt, h1, h2]
  · intro el tbl data ds m h1
    simp [updateWatchAttribute, jsOrOpt, h1]
  · intro el tbl data ds m h1 h2
    simp [updateWatchAttribute, jsOrOpt, h1, h2]
  · intro el data attrName property h1 h2
    have hv : isValidAttribute attrName = true := by
      simp [isValidAttribute, ignoredAttributes, h1, h2]
    rw [watchStep_attrs, if_pos hv, slookup_aset_self]
  · intro el data attrName property h1
    have hv : isValidAttribute attrName = false := by
      rcases h1 with h | h <;> simp [isValidAttribute, ignoredAttributes, h]
    rw [watchStep_attrs, if_neg]
    rw [hv]
    exact Bool.false_ne_true
  · intro el data attrName property h1
    constructor
    · rw [watchStep_propVals, if_pos h1, slookup_aset_self]
    · rw [watchStep_callbacks, if_pos h1, slookup_aset_self]
  · intro el data attrName property h1
    constructor
    · rw [watchStep_propVals, if_neg]
      rw [h1]
      exact Bool.false_ne_true
    · rw [watchStep_callbacks, if_neg]
      rw [h1]
      exact Bool.false_ne_true
  · intro el data property
    rw [watchStep_innerHTML, if_pos rfl]
  · intro el data attrName property h1
    rw [watchStep_innerHTML, if_neg h1]

theorem c3_watch_pass_witness :
    mget [("*", [("content", "a")])] (JSValue.str "x") = none
    ∧ slookup [("*", [("content", "a")])] STATE_GLOBAL = some [("content", "a")]
    ∧ updateWatchAttribute ⟨[], ["content"], [], [], ""⟩ [("*", [("content", "a")])]
        (.obj (.cons "a" (.str "A") .nil)) (.str "x") =
      watchStep (.obj (.cons "a" (.str "A") .nil)) ⟨[], ["content"], [], [], ""⟩ ("content", "a")
    ∧ ("content" : String) ≠ "data"
    ∧ slookup (watchStep (.obj (.cons "a" (.str "A") .nil)) ⟨[], ["content"], [], [], ""⟩
        ("content", "a")).attrs "content" = some "A"
    ∧ (["content"] : List String).contains "content" = true
    ∧ slookup (watchStep (.obj (.cons "a" (.str "A") .nil)) ⟨[], ["content"], [], [], ""⟩
        ("content", "a")).propVals "content" = some (.str "A")
    ∧ slookup (watchStep (.obj (.cons "a" (.str "A") .nil)) ⟨[], ["content"], [], [], ""⟩
        ("content", "a")).callbacks "contentChanged" = some "a"
    ∧ (watchStep (.obj (.cons "a" (.str "A") .nil)) ⟨[], ["content"], [], [], ""⟩
        ("content", "a")).innerHTML = "A" := by
  refine ⟨by decide, by decide, ?_, by decide, ?_, by decide, ?_, ?_, ?_⟩
  · have h := c3_watch_pass.2.2.1 ⟨[], ["content"], [], [], ""⟩ [("*", [("content", "a")])]
      (.obj (.cons "a" (.str "A") .nil)) (.str "x") [("content", "a")] (by decide) (by decide)
    rw [h]
    decide
  · have h := c3_watch_pass.2.2.2.1 ⟨[], ["content"], [], [], ""⟩
      (.obj (.cons "a" (.str "A") .nil)) "content" "a" (by decide) (by decide)
    rw [h]
    decide
  · have h := (c3_watch_pass.2.2.2.2.2.1 ⟨[], ["content"], [], [], ""⟩
      (.obj (.cons "a" (.str "A") .nil)) "content" "a" (by decide)).1
    rw [h]
    decide
  · have h := (c3_watch_pass.2.2.2.2.2.1 ⟨[], ["content"], [], [], ""⟩
      (.obj (.cons "a" (.str "A") .nil)) "content" "a" (by decide)).2
    rw [show composeChangeEventName "content" = "contentChanged" from rfl] at h
    rw [h]
  · have h := c3_watch_pass.2.2.2.2.2.2.2.1 ⟨[], ["content"], [], [], ""⟩
      (.obj (.cons "a" (.str "A") .nil)) "a"
    rw [h]
    decide

theorem rlookup_mem {r : List (JSValue × List Nat)} {k : JSValue} {ns : List Nat}
    (h : rlookup r k = some ns) : (k, ns) ∈ r := by
  induction r with
  | nil => cases h
  | cons e rest ih =>
      rw [show e = (e.1, e.2) from rfl] at h ⊢
      simp only [rlookup] at h
      by_cases he : e.1 = k
      · rw [if_pos he] at h
        injection h with h2
        subst he
        subst h2
        exact List.mem_cons_self _ _
      · rw [if_neg he] at h
        exact List.mem_cons_of_mem _ (ih h)

theorem rlookup_of_mem {r : List (JSValue × List Nat)} {e : JSValue × List Nat}
    (hnd : (rkeys r).Nodup) (h : e ∈ r) : rlookup r e.1 = some e.2 := by
  induction r with
  | nil => cases h
  | cons e0 rest ih =>
      rcases List.mem_cons.mp h with h | h
      · subst h
        simp [rlookup]
      · have hne : e0.1 ≠ e.1 := by
          intro hc
          have : e.1 ∈ rkeys rest := List.mem_map_of_mem (·.1) h
          rw [← hc] at this
          exact (List.nodup_cons.mp hnd).1 this
        simp only [rlookup]
        rw [show e0 = (e0.1, e0.2) from rfl]
        simp only [hne, if_false]
        exact ih (List.nodup_cons.mp hnd).2 h

theorem rlookup_append_of_some {r s : List (JSValue × List Nat)} {k : JSValue}
    {ns : List Nat} (h : rlookup r k = some ns) : rlookup (r ++ s) k = some ns := by
  induction r with
  | nil => cases h
  | cons e rest ih =>
      rw [show e = (e.1, e.2) from rfl] at h ⊢
      simp only [rlookup] at h
      simp only [List.cons_append, rlookup]
      by_cases he : e.1 = k
      · rw [if_pos he] at h ⊢
        exact h
      · rw [if_neg he] at h ⊢
        exact ih h

theorem rlookup_append_of_none {r s : List (JSValue × List Nat)} {k : JSValue}
    (h : rlookup r k = none) : rlookup (r ++ s) k = rlookup s k := by
  induction r with
  | nil => rfl
  | cons e rest ih =>
      simp only [rlookup] at h
      rw [show e = (e.1, e.2) from rfl] at *
      by_cases he : e.1 = k
      · simp [he] at h
      · simp only [he, if_false] at h
        simp only [List.cons_append, rlookup, he, if_false]
        exact ih h

theorem rlookup_eraseKey_ne {r : List (JSValue × List Nat)} {k k2 : JSValue}
    (h : k2 ≠ k) : rlookup (eraseKey r k) k2 = rlookup r k2 := by
  induction r with
  | nil => rfl
  | cons e rest ih =>
      by_cases he : e.1 = k
      · have he2 : e.1 ≠ k2 := by rw [he]; exact fun hc => h hc.symm
        simp only [eraseKey, List.filter_cons]
        rw [show (decide (e.1 ≠ k)) = false by simp [he]]
        simp only [rlookup]
        rw [show e = (e.1, e.2) from rfl]
        simp only [he2, if_false]
        exact ih
      · simp only [eraseKey, List.filter_cons]
        rw [show (decide (e.1 ≠ k)) = true by simp [he]]
        simp only [rlookup]
        rw [show e = (e.1, e.2) from rfl]
        by_cases he2 : e.1 = k2
        · simp [eraseKey] at ih ⊢
          simp [he2]
        · simp only [he2, if_false]
          simpa [eraseKey] using ih

theorem exceptMapKeys_ok {picker : JSValue → Except String JSValue}
    {keyOf : JSValue → JSValue} {l : List JSValue}
    (h : ∀ d ∈ l, picker d = .ok (keyOf d)) :
    exceptMapKeys picker l = .ok (l.map keyOf) := by
  induction l with
  | nil => rfl
  | cons d rest ih =>
      simp only [exceptMapKeys, h d (List.mem_cons_self d rest)]
      rw [ih (fun x hx => h x (List.mem_cons_of_mem d hx))]
      simp

theorem prevSibling_append (P Q : List Nat) (a : Nat) (ha : a ∉ P) :
    prevSibling (P ++ a :: Q) a = P.getLast? := by
  induction P with
  | nil =>
      cases Q <;> simp [prevSibling]
  | cons p P2 ih =>
      have hpa : p ≠ a := fun hc => ha (hc ▸ List.mem_cons_self p P2)
      have ha2 : a ∉ P2 := fun hc => ha (List.mem_cons_of_mem p hc)
      cases P2 with
      | nil =>
          simp [prevSibling, hpa]
      | cons p2 P3 =>
          have hp2a : p2 ≠ a := fun hc => ha2 (hc ▸ List.mem_cons_self p2 P3)
          simp only [List.cons_append, prevSibling, hpa, if_false, List.getLast?_cons_cons]
          rw [show (p2 :: P3 ++ a :: Q) = ((p2 :: P3) ++ a :: Q) from rfl] at *
          simp only [List.cons_append] at ih ⊢
          rw [if_neg hp2a]
          have := ih ha2
          simp only [prevSibling] at this ⊢
          cases P3 with
          | nil => simp [prevSibling, hp2a]
          | cons p3 P4 => simpa [prevSibling, hp2a] using this

theorem insertAt_append (P Q : List Nat) (n a : Nat) (ha : a ∉ P) :
    insertAt (P ++ a :: Q) n a = P ++ n :: a :: Q := by
  induction P with
  | nil => simp [insertAt]
  | cons p P2 ih =>
      have hpa : p ≠ a := fun hc => ha (hc ▸ List.mem_cons_self p P2)
      have ha2 : a ∉ P2 := fun hc => ha (List.mem_cons_of_mem p hc)
      simp only [List.cons_append, insertAt, hpa, if_false, List.append_eq]
      rw [ih ha2]

theorem mem_insertAt {cs : List Nat} {x n a : Nat} (h : x ∈ insertAt cs n a) :
    x = n ∨ x ∈ cs := by
  induction cs with
  | nil => simpa [insertAt] using h
  | cons c rest ih =>
      simp only [insertAt] at h
      by_cases hc : c = a
      · rw [if_pos hc] at h
        rcases List.mem_cons.mp h with h | h
        · exact Or.inl h
        · exact Or.inr h
      · rw [if_neg hc] at h
        rcases List.mem_cons.mp h with h | h
        · exact Or.inr (h ▸ List.mem_cons_self c rest)
        · rcases ih h with h | h
          · exact Or.inl h
          · exact Or.inr (List.mem_cons_of_mem c h)

theorem erase_append_anchor {P Q : List Nat} {n a : Nat} (hna : n ≠ a) (hnq : n ∉ Q) :
    (P ++ a :: Q).erase n = P.erase n ++ a :: Q := by
  by_cases hp : n ∈ P
  · exact List.erase_append_left _ hp
  · rw [List.erase_append_right _ hp, List.erase_of_not_mem hp]
    have : n ∉ a :: Q := by
      intro hc
      rcases List.mem_cons.mp hc with hc | hc
      · exact hna hc
      · exact hnq hc
    rw [List.erase_of_not_mem this]

theorem erase_getLast (P : List Nat) (n : Nat) (hnd : P.Nodup)
    (hl : P.getLast? = some n) : P.erase n ++ [n] = P := by
  induction P with
  | nil => cases hl
  | cons p P2 ih =>
      cases P2 with
      | nil =>
          simp only [List.getLast?_singleton] at hl
          injection hl with hl
          subst hl
          simp [List.erase_cons_head]
      | cons p2 P3 =>
          rw [List.getLast?_cons_cons] at hl
          have hmem : n ∈ p2 :: P3 := by
            have hne : p2 :: P3 ≠ [] := by simp
            have := List.getLast?_eq_getLast (p2 :: P3) hne
            rw [this] at hl
            injection hl with hl
            rw [← hl]
            exact List.getLast_mem hne
          have hpn : p ≠ n := by
            intro hc
            exact (List.nodup_cons.mp hnd).1 (hc ▸ hmem)
          rw [List.erase_cons_tail]
          · rw [List.cons_append, ih (List.nodup_cons.mp hnd).2 hl]
          · simp [hpn]

theorem filter_and_ne (P : List Nat) (n : Nat) (rest : List Nat) :
    P.filter (fun x => decide (x ∉ rest) && (x != n)) =
      P.filter (fun x => decide (x ∉ n :: rest)) := by
  apply List.filter_congr
  intro x hx
  by_cases h1 : x = n <;> by_cases h2 : x ∈ rest <;> simp [h1, h2, List.mem_cons]

theorem placeNodes_spec (rns : List Nat) :
    ∀ (a : Nat) (P Q : List Nat),
    (P ++ a :: Q).Nodup → rns.Nodup → a ∉ rns → (∀ n ∈ rns, n ∉ Q) →
    placeNodes rns a (P ++ a :: Q) =
      (P.filter (fun x => decide (x ∉ rns)) ++ rns.reverse ++ a :: Q,
       rns.getLast?.getD a) := by
  induction rns with
  | nil =>
      intro a P Q hnd hrns hra hrq
      simp [placeNodes]
  | cons n rest ih =>
      intro a P Q hnd hrns hra hrq
      have hdisj : P.Disjoint (a :: Q) := (List.nodup_append.mp hnd).2.2
      have haP : a ∉ P := fun hc => hdisj hc (List.mem_cons_self a Q)
      have hPnd : P.Nodup := (List.nodup_append.mp hnd).1
      have haQnd : (a :: Q).Nodup := (List.nodup_append.mp hnd).2.1
      have hna : n ≠ a := fun hc => hra (hc ▸ List.mem_cons_self n rest)
      have hnQ : n ∉ Q := hrq n (List.mem_cons_self n rest)
      have hcs2 : (if prevSibling (P ++ a :: Q) a = some n then P ++ a :: Q
          else insertBefore (P ++ a :: Q) n a) = P.erase n ++ n :: a :: Q := by
        by_cases hbr : prevSibling (P ++ a :: Q) a = some n
        · rw [if_pos hbr]
          rw [prevSibling_append P Q a haP] at hbr
          have herl := erase_getLast P n hPnd hbr
          conv_lhs => rw [← herl]
          simp
        · rw [if_neg hbr]
          unfold insertBefore
          rw [erase_append_anchor hna hnQ]
          refine insertAt_append _ _ _ _ (fun hc => haP ?_)
          exact List.mem_of_mem_erase hc
      simp only [placeNodes]
      rw [hcs2]
      have hrestnd : rest.Nodup := (List.nodup_cons.mp hrns).2
      have hnrest : n ∉ rest := (List.nodup_cons.mp hrns).1
      have hnd2 : (P.erase n ++ n :: a :: Q).Nodup := by
        rw [List.nodup_append]
        refine ⟨hPnd.erase n, ?_, ?_⟩
        · rw [List.nodup_cons]
          refine ⟨?_, haQnd⟩
          intro hc
          rcases List.mem_cons.mp hc with hc | hc
          · exact hna hc
          · exact hnQ hc
        · intro x hx hc
          rcases List.mem_cons.mp hc with hc | hc
          · subst hc
            exact ((hPnd.mem_erase_iff.mp hx).1) rfl
          · exact hdisj (List.mem_of_mem_erase hx) hc
      have hrq2 : ∀ m ∈ rest, m ∉ a :: Q := by
        intro m hm hc
        rcases List.mem_cons.mp hc with hc | hc
        · exact hra (hc ▸ List.mem_cons_of_mem n hm)
        · exact hrq m (List.mem_cons_of_mem n hm) hc
      have hih := ih n (P.erase n) (a :: Q) hnd2 hrestnd hnrest hrq2
      rw [hih]
      have hfil : (P.erase n).filter (fun x => decide (x ∉ rest)) =
          P.filter (fun x => decide (x ∉ n :: rest)) := by
        rw [hPnd.erase_eq_filter n, List.filter_filter, filter_and_ne]
      have hanchor : rest.getLast?.getD n = (n :: rest).getLast?.getD a := by
        cases rest with
        | nil => simp
        | cons r rs =>
            rw [List.getLast?_cons_cons]
            rw [List.getLast?_eq_getLast (r :: rs) (by simp)]
            simp
      rw [hfil, hanchor]
      simp [List.reverse_cons, List.append_assoc]

theorem placeNodes_children_mem (rns : List Nat) :
    ∀ (a : Nat) (cs : List Nat) (x : Nat),
    x ∈ (placeNodes rns a cs).1 → x ∈ cs ∨ x ∈ rns := by
  induction rns with
  | nil =>
      intro a cs x h
      exact Or.inl (by simpa [placeNodes] using h)
  | cons n rest ih =>
      intro a cs x h
      simp only [placeNodes] at h
      rcases ih n _ x h with h2 | h2
      · by_cases hbr : prevSibling cs a = some n
        · rw [if_pos hbr] at h2
          exact Or.inl h2
        · rw [if_neg hbr] at h2
          unfold insertBefore at h2
          rcases mem_insertAt h2 with h3 | h3
          · exact Or.inr (h3 ▸ List.mem_cons_self n rest)
          · exact Or.inl (List.mem_of_mem_erase h3)
      · exact Or.inr (List.mem_cons_of_mem n h2)

theorem revSnaps_append (keyOf : JSValue → JSValue) (xs ys : List JSValue) :
    revSnaps keyOf (xs ++ ys) =
      (revSnaps keyOf xs).map (fun s => ⟨s.data, s.key, s.index + ys.length⟩) ++
        revSnaps keyOf ys := by
  induction xs with
  | nil => simp [revSnaps]
  | cons d rest ih => simp [revSnaps, ih, List.length_append]

theorem mem_revSnaps_of_getElem (keyOf : JSValue → JSValue) (l : List JSValue) :
    ∀ (p : Nat) (d : JSValue), l[p]? = some d →
      Snapshot.mk d (keyOf d) p ∈ revSnaps keyOf l.reverse := by
  induction l with
  | nil =>
      intro p d h
      simp at h
  | cons x rest ih =>
      intro p d h
      cases p with
      | zero =>
          have hxd : x = d := by simpa using h
          subst hxd
          rw [List.reverse_cons, revSnaps_append]
          refine List.mem_append_right _ ?_
          simp [revSnaps]
      | succ p2 =>
          have h2 : rest[p2]? = some d := by simpa using h
          rw [List.reverse_cons, revSnaps_append]
          refine List.mem_append_left _ ?_
          refine List.mem_map.mpr ⟨⟨d, keyOf d, p2⟩, ih p2 d h2, ?_⟩
          simp

theorem nodesConcat_append (r : List (JSValue × List Nat)) (keyOf : JSValue → JSValue)
    (xs ys : List JSValue) :
    nodesConcat r keyOf (xs ++ ys) = nodesConcat r keyOf xs ++ nodesConcat r keyOf ys := by
  simp [nodesConcat]

theorem nodesConcat_singleton (r : List (JSValue × List Nat)) (keyOf : JSValue → JSValue)
    (d : JSValue) : nodesConcat r keyOf [d] = nodesFor r (keyOf d) := by
  simp [nodesConcat]

theorem mem_nodesConcat {r : List (JSValue × List Nat)} {keyOf : JSValue → JSValue}
    {l : List JSValue} {x : Nat} (h : x ∈ nodesConcat r keyOf l) :
    ∃ d ∈ l, x ∈ nodesFor r (keyOf d) := by
  unfold nodesConcat at h
  rw [List.mem_flatten] at h
  obtain ⟨ns, hns, hx⟩ := h
  rw [List.mem_map] at hns
  obtain ⟨d, hd, hdeq⟩ := hns
  exact ⟨d, hd, hdeq ▸ hx⟩

theorem discardFold_spec (ks : List JSValue) :
    ∀ (r : List (JSValue × List Nat)) (cs : List Nat), ks.Nodup →
    (ks.foldl discardRenderer (r, cs)).1 = r.filter (fun e => decide (e.1 ∉ ks))
    ∧ (∀ x : Nat, x ∈ (ks.foldl discardRenderer (r, cs)).2 ↔
        x ∈ cs ∧ ∀ k ∈ ks, x ∉ nodesFor r k)
    ∧ (ks.foldl discardRenderer (r, cs)).2.Sublist cs := by
  induction ks with
  | nil =>
      intro r cs _
      refine ⟨by simp, fun x => by simp, by simp⟩
  | cons k ks2 ih =>
      intro r cs hnd
      have hk2 : k ∉ ks2 := (List.nodup_cons.mp hnd).1
      simp only [List.foldl_cons]
      have hstep : discardRenderer (r, cs) k =
          (eraseKey r k, cs.filter (fun c => decide (c ∉ nodesFor r k))) := rfl
      rw [hstep]
      obtain ⟨h1, h2, h3⟩ :=
        ih (eraseKey r k) (cs.filter (fun c => decide (c ∉ nodesFor r k)))
          (List.nodup_cons.mp hnd).2
      refine ⟨?_, ?_, ?_⟩
      · rw [h1]
        unfold eraseKey
        rw [List.filter_filter]
        apply List.filter_congr
        intro e he
        by_cases hek : e.1 = k <;> by_cases heks : e.1 ∈ ks2 <;>
          simp [hek, heks, List.mem_cons, hk2]
      · intro x
        rw [h2 x]
        constructor
        · rintro ⟨hx, hall⟩
          rw [List.mem_filter] at hx
          refine ⟨hx.1, ?_⟩
          intro k2 hk2m
          rcases List.mem_cons.mp hk2m with hh | hh
          · subst hh
            simpa using hx.2
          · have hne : k2 ≠ k := fun hc => hk2 (hc ▸ hh)
            have := hall k2 hh
            rwa [show nodesFor (eraseKey r k) k2 = nodesFor r k2 from by
              unfold nodesFor
              rw [rlookup_eraseKey_ne hne]] at this
        · rintro ⟨hx, hall⟩
          refine ⟨List.mem_filter.mpr ⟨hx, by
            simpa using hall k (List.mem_cons_self k ks2)⟩, ?_⟩
          intro k2 hmem
          have hne : k2 ≠ k := fun hc => hk2 (hc ▸ hmem)
          rw [show nodesFor (eraseKey r k) k2 = nodesFor r k2 from by
            unfold nodesFor
            rw [rlookup_eraseKey_ne hne]]
          exact hall k2 (List.mem_cons_of_mem _ hmem)
      · exact h3.trans (List.filter_sublist cs)

theorem removeExpiredData_spec (picker : JSValue → Except String JSValue)
    (keyOf : JSValue → JSValue) (dataSource : List JSValue) (st : ACE)
    (hpick : ∀ d ∈ dataSource, picker d = .ok (keyOf d)) (hwf : wellFormed st) :
    ∃ st1 : ACE, removeExpiredData picker dataSource st = .ok st1
      ∧ st1.renderers =
          st.renderers.filter (fun e => decide (e.1 ∈ dataSource.map keyOf))
      ∧ (∀ x : Nat, x ∈ st1.children ↔ x ∈ st.children ∧
          ∀ e ∈ st.renderers, e.1 ∉ dataSource.map keyOf → x ∉ e.2)
      ∧ st1.fresh = st.fresh ∧ st1.templateLen = st.templateLen
      ∧ wellFormed st1 := by
  obtain ⟨hk, he, hd, hcnd, hcb⟩ := hwf
  have hkeys := exceptMapKeys_ok hpick
  have hdnd : ((rkeys st.renderers).filter
      (fun k => decide (k ∉ dataSource.map keyOf))).Nodup := hk.filter _
  obtain ⟨h1, h2, h3⟩ := discardFold_spec
    ((rkeys st.renderers).filter (fun k => decide (k ∉ dataSource.map keyOf)))
    st.renderers st.children hdnd
  have hren : (List.foldl discardRenderer (st.renderers, st.children)
      ((rkeys st.renderers).filter (fun k => decide (k ∉ dataSource.map keyOf)))).1 =
      st.renderers.filter (fun e => decide (e.1 ∈ dataSource.map keyOf)) := by
    rw [h1]
    apply List.filter_congr
    intro e he2
    have he1 : e.1 ∈ rkeys st.renderers := List.mem_map_of_mem (·.1) he2
    rw [decide_eq_decide, List.mem_filter]
    simp [he1]
  have hch : ∀ x : Nat, (x ∈ (List.foldl discardRenderer (st.renderers, st.children)
      ((rkeys st.renderers).filter (fun k => decide (k ∉ dataSource.map keyOf)))).2 ↔
      x ∈ st.children ∧
        ∀ e ∈ st.renderers, e.1 ∉ dataSource.map keyOf → x ∉ e.2) := by
    intro x
    rw [h2 x]
    constructor
    · rintro ⟨hx, hall⟩
      refine ⟨hx, ?_⟩
      intro e he2 hek
      have hmem : e.1 ∈ (rkeys st.renderers).filter
          (fun k => decide (k ∉ dataSource.map keyOf)) :=
        List.mem_filter.mpr ⟨List.mem_map_of_mem (·.1) he2, by simpa using hek⟩
      have := hall e.1 hmem
      rwa [show nodesFor st.renderers e.1 = e.2 from by
        unfold nodesFor
        rw [rlookup_of_mem hk he2]
        rfl] at this
    · rintro ⟨hx, hall⟩
      refine ⟨hx, ?_⟩
      intro k hkm
      rw [List.mem_filter] at hkm
      obtain ⟨e, he2, heq⟩ := List.mem_map.mp hkm.1
      rw [show nodesFor st.renderers k = e.2 from by
        unfold nodesFor
        rw [← heq, rlookup_of_mem hk he2]
        rfl]
      exact hall e he2 (by
        rw [heq]
        simpa using hkm.2)
  refine ⟨{ st with
      renderers := (List.foldl discardRenderer (st.renderers, st.children)
        ((rkeys st.renderers).filter (fun k => decide (k ∉ dataSource.map keyOf)))).1,
      children := (List.foldl discardRenderer (st.renderers, st.children)
        ((rkeys st.renderers).filter (fun k => decide (k ∉ dataSource.map keyOf)))).2 },
    ?_, ?_, ?_, rfl, rfl, ?_⟩
  · simp only [removeExpiredData, hkeys]
  · exact hren
  · exact hch
  · refine ⟨?_, ?_, ?_, ?_, ?_⟩
    · show (rkeys (List.foldl discardRenderer (st.renderers, st.children) _).1).Nodup
      rw [hren]
      have hk2 : (st.renderers.map (fun e => e.1)).Nodup := hk
      show (List.map (fun e => e.1)
        (st.renderers.filter (fun e => decide (e.1 ∈ dataSource.map keyOf)))).Nodup
      exact ((List.filter_sublist st.renderers).map (fun e => e.1)).nodup hk2
    · intro e he2
      rw [show ({ st with
          renderers := (List.foldl discardRenderer (st.renderers, st.children)
            ((rkeys st.renderers).filter (fun k => decide (k ∉ dataSource.map keyOf)))).1,
          children := (List.foldl discardRenderer (st.renderers, st.children)
            ((rkeys st.renderers).filter (fun k => decide (k ∉ dataSource.map keyOf)))).2 } : ACE).renderers =
          (List.foldl discardRenderer (st.renderers, st.children)
            ((rkeys st.renderers).filter (fun k => decide (k ∉ dataSource.map keyOf)))).1 from rfl,
        hren] at he2
      exact he e (List.mem_of_mem_filter he2)
    · intro e1 he1 e2 he2 hne
      rw [show ({ st with
          renderers := (List.foldl discardRenderer (st.renderers, st.children)
            ((rkeys st.renderers).filter (fun k => decide (k ∉ dataSource.map keyOf)))).1,
          children := (List.foldl discardRenderer (st.renderers, st.children)
            ((rkeys st.renderers).filter (fun k => decide (k ∉ dataSource.map keyOf)))).2 } : ACE).renderers =
          (List.foldl discardRenderer (st.renderers, st.children)
            ((rkeys st.renderers).filter (fun k => decide (k ∉ dataSource.map keyOf)))).1 from rfl,
        hren] at he1 he2
      exact hd e1 (List.mem_of_mem_filter he1) e2 (List.mem_of_mem_filter he2) hne
    · exact h3.nodup hcnd
    · intro c hc
      exact hcb c (h3.subset hc)

theorem rlookup_isSome_iff {r : List (JSValue × List Nat)} {k : JSValue} :
    (rlookup r k).isSome = true ↔ k ∈ rkeys r := by
  induction r with
  | nil => simp [rlookup, rkeys]
  | cons e rest ih =>
      by_cases he : e.1 = k
      · rw [show e = (e.1, e.2) from rfl]
        simp [rlookup, rkeys, he]
      · rw [show e = (e.1, e.2) from rfl]
        simp only [rlookup, he, if_false, rkeys, List.map_cons, List.mem_cons]
        rw [show (rkeys rest = List.map (fun x => x.1) rest) from rfl] at ih
        rw [ih]
        constructor
        · exact Or.inr
        · intro h
          rcases h with h | h
          · exact absurd h.symm he
          · exact h

theorem rkeys_append_single (r : List (JSValue × List Nat)) (k : JSValue)
    (ns : List Nat) : rkeys (r ++ [(k, ns)]) = rkeys r ++ [k] := by
  simp [rkeys]

theorem rlookup_single_self (k : JSValue) (ns : List Nat) :
    rlookup [(k, ns)] k = some ns := by
  simp [rlookup]

theorem mem_cloned {tLen fresh n : Nat}
    (h : n ∈ (List.range tLen).map (fun i => fresh + i)) :
    fresh ≤ n ∧ n < fresh + tLen := by
  rw [List.mem_map] at h
  obtain ⟨i, hi, heq⟩ := h
  rw [List.mem_range] at hi
  omega

theorem cloned_nodup (tLen fresh : Nat) :
    ((List.range tLen).map (fun i => fresh + i)).Nodup :=
  (List.nodup_range tLen).map (fun a b hab => by omega)

theorem renderItems_step (picker : JSValue → Except String JSValue)
    (keyOf : JSValue → JSValue) (d : JSValue) (rest : List JSValue)
    (idx dp a : Nat) (st : ACE) (snaps : List Snapshot)
    (hpd : picker d = .ok (keyOf d)) :
    ∃ st1 : ACE,
      renderItems picker (d :: rest) idx dp a st snaps =
        renderItems picker rest (idx + 1) dp
          (placeNodes (nodesFor st1.renderers (keyOf d)).reverse a st1.children).2
          { st1 with children :=
              (placeNodes (nodesFor st1.renderers (keyOf d)).reverse a st1.children).1 }
          (snaps ++ [⟨d, keyOf d, dp - idx⟩])
      ∧ st1.children = st.children
      ∧ st1.templateLen = st.templateLen
      ∧ (∀ k ns, rlookup st.renderers k = some ns → rlookup st1.renderers k = some ns)
      ∧ (∀ k, k ∈ rkeys st1.renderers ↔ k ∈ rkeys st.renderers ∨ k = keyOf d)
      ∧ st.fresh ≤ st1.fresh
      ∧ (wellFormed st → wellFormed st1)
      ∧ (∀ k ns, rlookup st1.renderers k = some ns →
          rlookup st.renderers k = some ns ∨ ∀ n ∈ ns, st.fresh ≤ n)
      ∧ (keyOf d ∈ rkeys st.renderers → st1 = st)
      ∧ (rlookup st1.renderers (keyOf d)).isSome = true
      ∧ (rlookup st.renderers (keyOf d) = none →
          ∀ n ∈ nodesFor st1.renderers (keyOf d), st.fresh ≤ n) := by
  by_cases hreg : (rlookup st.renderers (keyOf d)).isSome = true
  · refine ⟨st, ?_, rfl, rfl, fun k ns h => h, ?_, le_refl _, fun h => h,fun k ns h => Or.inl h,
      fun _ => rfl, hreg, ?_⟩
    · simp only [renderItems, hpd]
      rw [if_pos hreg]
    · intro k
      constructor
      · exact Or.inl
      · intro h
        rcases h with h | h
        · exact h
        · subst h
          exact rlookup_isSome_iff.mp hreg
    · intro h
      rw [Option.isSome_iff_exists] at hreg
      obtain ⟨ns, hns⟩ := hreg
      rw [hns] at h
      cases h
  · have hnone : rlookup st.renderers (keyOf d) = none := by
      rcases hx : rlookup st.renderers (keyOf d) with _ | ns
      · rfl
      · rw [hx] at hreg
        simp at hreg
    have hnotmem : keyOf d ∉ rkeys st.renderers := by
      intro hc
      exact hreg (rlookup_isSome_iff.mpr hc)
    refine ⟨{ st with
        renderers := st.renderers ++
          [(keyOf d, (List.range st.templateLen).map (fun i => st.fresh + i))],
        fresh := st.fresh + st.templateLen }, ?_, rfl, rfl, ?_, ?_, ?_, ?_, ?_, ?_, ?_, ?_⟩
    · simp only [renderItems, hpd]
      rw [if_neg hreg]
    · intro k ns h
      exact rlookup_append_of_some h
    · intro k
      rw [show rkeys ({ st with
          renderers := st.renderers ++
            [(keyOf d, (List.range st.templateLen).map (fun i => st.fresh + i))],
          fresh := st.fresh + st.templateLen } : ACE).renderers =
          rkeys st.renderers ++ [keyOf d] from rkeys_append_single _ _ _]
      simp [List.mem_append]
    · exact Nat.le_add_right _ _
    · rintro ⟨hk, he, hd, hcnd, hcb⟩
      refine ⟨?_, ?_, ?_, hcnd, ?_⟩
      · rw [rkeys_append_single]
        exact hk.append (List.nodup_singleton _)
          (fun y hy hmem => hnotmem ((List.mem_singleton.mp hmem) ▸ hy))
      · intro e hmem
        rcases List.mem_append.mp hmem with hmem | hmem
        · obtain ⟨h1, h2⟩ := he e hmem
          exact ⟨h1, fun n hn => lt_of_lt_of_le (h2 n hn) (Nat.le_add_right _ _)⟩
        · rw [List.mem_singleton] at hmem
          subst hmem
          refine ⟨cloned_nodup _ _, ?_⟩
          intro n hn
          exact (mem_cloned hn).2
      · intro e1 h1 e2 h2 hne
        rcases List.mem_append.mp h1 with h1 | h1 <;>
          rcases List.mem_append.mp h2 with h2 | h2
        · exact hd e1 h1 e2 h2 hne
        · rw [List.mem_singleton] at h2
          subst h2
          intro n hn hn2
          have hb := (he e1 h1).2 n hn
          have := (mem_cloned hn2).1
          omega
        · rw [List.mem_singleton] at h1
          subst h1
          intro n hn hn2
          have hb := (he e2 h2).2 n hn2
          have := (mem_cloned hn).1
          omega
        · rw [List.mem_singleton] at h1 h2
          subst h1
          subst h2
          exact absurd rfl hne
      · intro c hc
        exact lt_of_lt_of_le (hcb c hc) (Nat.le_add_right _ _)
    · intro k ns h
      rcases hx : rlookup st.renderers k with _ | ns0
      · rw [rlookup_append_of_none hx] at h
        by_cases hkk : k = keyOf d
        · subst hkk
          rw [rlookup_single_self] at h
          injection h with h2
          subst h2
          exact Or.inr (fun n hn => (mem_cloned hn).1)
        · rw [show rlookup [(keyOf d, (List.range st.templateLen).map
              (fun i => st.fresh + i))] k = none from by
            simp only [rlookup]
            rw [if_neg (fun hc => hkk hc.symm)]] at h
          cases h
      · rw [rlookup_append_of_some hx] at h
        injection h with h2
        exact Or.inl (by rw [h2])
    · intro hc
      exact absurd hc hnotmem
    · rw [show rlookup ({ st with
          renderers := st.renderers ++
            [(keyOf d, (List.range st.templateLen).map (fun i => st.fresh + i))],
          fresh := st.fresh + st.templateLen } : ACE).renderers (keyOf d) =
          some ((List.range st.templateLen).map (fun i => st.fresh + i)) from by
        rw [show ({ st with
            renderers := st.renderers ++
              [(keyOf d, (List.range st.templateLen).map (fun i => st.fresh + i))],
            fresh := st.fresh + st.templateLen } : ACE).renderers =
            st.renderers ++ [(keyOf d, (List.range st.templateLen).map
              (fun i => st.fresh + i))] from rfl]
        rw [rlookup_append_of_none hnone, rlookup_single_self]]
      rfl
    · intro _ n hn
      unfold nodesFor at hn
      rw [show ({ st with
          renderers := st.renderers ++
            [(keyOf d, (List.range st.templateLen).map (fun i => st.fresh + i))],
          fresh := st.fresh + st.templateLen } : ACE).renderers =
          st.renderers ++ [(keyOf d, (List.range st.templateLen).map
            (fun i => st.fresh + i))] from rfl] at hn
      rw [rlookup_append_of_none hnone, rlookup_single_self] at hn
      simp only [Option.getD_some] at hn
      exact (mem_cloned hn).1

theorem insertAt_nodup {cs : List Nat} {n a : Nat} (hnd : cs.Nodup) (hn : n ∉ cs) :
    (insertAt cs n a).Nodup := by
  induction cs with
  | nil => simp [insertAt]
  | cons c rest ih =>
      have hnc : n ≠ c := fun hc => hn (hc ▸ List.mem_cons_self c rest)
      have hnr : n ∉ rest := fun hc => hn (List.mem_cons_of_mem c hc)
      simp only [insertAt]
      by_cases hca : c = a
      · rw [if_pos hca]
        rw [List.nodup_cons]
        exact ⟨fun hc => hn hc, hnd⟩
      · rw [if_neg hca]
        rw [List.nodup_cons] at hnd ⊢
        refine ⟨?_, ih hnd.2 hnr⟩
        intro hc
        rcases mem_insertAt hc with hc2 | hc2
        · exact hnc hc2.symm
        · exact hnd.1 hc2

theorem insertBefore_nodup {cs : List Nat} {n a : Nat} (hnd : cs.Nodup) :
    (insertBefore cs n a).Nodup := by
  unfold insertBefore
  exact insertAt_nodup (hnd.erase n) (fun hc => (hnd.mem_erase_iff.mp hc).1 rfl)

theorem placeNodes_nodup (rns : List Nat) :
    ∀ (a : Nat) (cs : List Nat), cs.Nodup → (placeNodes rns a cs).1.Nodup := by
  induction rns with
  | nil =>
      intro a cs h
      simpa [placeNodes] using h
  | cons n rest ih =>
      intro a cs h
      simp only [placeNodes]
      by_cases hbr : prevSibling cs a = some n
      · rw [if_pos hbr]
        exact ih n cs h
      · rw [if_neg hbr]
        exact ih n _ (insertBefore_nodup h)

theorem renderItems_registry_spec (picker : JSValue → Except String JSValue)
    (keyOf : JSValue → JSValue) (items : List JSValue) :
    ∀ (idx dpLength a : Nat) (st : ACE) (snaps : List Snapshot),
    (∀ d ∈ items, picker d = .ok (keyOf d)) →
    wellFormed st →
    ∃ stF aF snapsF,
      renderItems picker items idx dpLength a st snaps = .ok (stF, aF, snapsF)
      ∧ (∀ k ns, rlookup st.renderers k = some ns → rlookup stF.renderers k = some ns)
      ∧ wellFormed stF
      ∧ (∀ k, k ∈ rkeys stF.renderers ↔ k ∈ rkeys st.renderers ∨ k ∈ items.map keyOf)
      ∧ st.fresh ≤ stF.fresh
      ∧ (∀ x ∈ stF.children,
          x ∈ st.children ∨ ∃ d ∈ items, x ∈ nodesFor stF.renderers (keyOf d))
      ∧ (∀ k ns, rlookup stF.renderers k = some ns →
          rlookup st.renderers k = some ns ∨ ∀ n ∈ ns, st.fresh ≤ n)
      ∧ ((∀ d ∈ items, keyOf d ∈ rkeys st.renderers) →
          stF.renderers = st.renderers ∧ stF.fresh = st.fresh) := by
  induction items with
  | nil =>
      intro idx dp a st snaps hpick hwf
      exact ⟨st, a, snaps, rfl, fun k ns h => h, hwf, by simp, le_refl _,
        fun x hx => Or.inl hx, fun k ns h => Or.inl h, fun _ => ⟨rfl, rfl⟩⟩
  | cons d rest ih =>
      intro idx dp a st snaps hpick hwf
      obtain ⟨st1, heq, hch, htl, hpres1, hiff1, hle1, hwfi1, hfe1, hnc1, hisome1, hfn1⟩ :=
        renderItems_step picker keyOf d rest idx dp a st snaps
          (hpick d (List.mem_cons_self d rest))
      have hwf1 : wellFormed st1 := hwfi1 hwf
      obtain ⟨hk1, he1, hd1, hcnd1, hcb1⟩ := hwf1
      obtain ⟨ns1, hns1⟩ := Option.isSome_iff_exists.mp hisome1
      have hnodes1 : nodesFor st1.renderers (keyOf d) = ns1 := by
        unfold nodesFor
        rw [hns1]
        rfl
      have hns1bound : ∀ n ∈ ns1, n < st1.fresh :=
        (he1 _ (rlookup_mem hns1)).2
      have hwf2 : wellFormed ({ st1 with children :=
          (placeNodes (nodesFor st1.renderers (keyOf d)).reverse a st1.children).1 } : ACE) := by
        refine ⟨hk1, he1, hd1, ?_, ?_⟩
        · exact placeNodes_nodup _ _ _ hcnd1
        · intro c hc
          rcases placeNodes_children_mem _ _ _ _ hc with hc2 | hc2
          · exact hcb1 c hc2
          · rw [List.mem_reverse, hnodes1] at hc2
            exact hns1bound c hc2
      obtain ⟨stF, aF, snapsF, iheq, ihpres, ihwf, ihiff, ihle, ihprov, ihfe, ihnc⟩ :=
        ih (idx + 1) dp
          (placeNodes (nodesFor st1.renderers (keyOf d)).reverse a st1.children).2
          ({ st1 with children :=
            (placeNodes (nodesFor st1.renderers (keyOf d)).reverse a st1.children).1 } : ACE)
          (snaps ++ [⟨d, keyOf d, dp - idx⟩])
          (fun x hx => hpick x (List.mem_cons_of_mem d hx)) hwf2
      refine ⟨stF, aF, snapsF, ?_, ?_, ihwf, ?_, ?_, ?_, ?_, ?_⟩
      · rw [heq]
        exact iheq
      · intro k ns h
        exact ihpres k ns (hpres1 k ns h)
      · intro k
        rw [ihiff k]
        have h1 := hiff1 k
        simp only [List.map_cons, List.mem_cons]
        constructor
        · intro h
          rcases h with h | h
          · rcases h1.mp h with h | h
            · exact Or.inl h
            · exact Or.inr (Or.inl h)
          · exact Or.inr (Or.inr h)
        · intro h
          rcases h with h | h | h
          · exact Or.inl (h1.mpr (Or.inl h))
          · exact Or.inl (h1.mpr (Or.inr h))
          · exact Or.inr h
      · exact le_trans hle1 ihle
      · intro x hx
        rcases ihprov x hx with hx2 | ⟨d2, hd2, hx2⟩
        · rcases placeNodes_children_mem _ _ _ _ hx2 with hx3 | hx3
          · rw [hch] at hx3
            exact Or.inl hx3
          · rw [List.mem_reverse, hnodes1] at hx3
            refine Or.inr ⟨d, List.mem_cons_self d rest, ?_⟩
            have hF : rlookup stF.renderers (keyOf d) = some ns1 := ihpres _ _ hns1
            unfold nodesFor
            rw [hF]
            simpa using hx3
        · exact Or.inr ⟨d2, List.mem_cons_of_mem d hd2, hx2⟩
      · intro k ns h
        rcases ihfe k ns h with h2 | h2
        · rcases hfe1 k ns h2 with h3 | h3
          · exact Or.inl h3
          · exact Or.inr h3
        · exact Or.inr (fun n hn => le_trans hle1 (h2 n hn))
      · intro hall
        have hst1 : st1 = st := hnc1 (hall d (List.mem_cons_self d rest))
        have ihnc2 := ihnc (fun d2 hd2 => by
          show keyOf d2 ∈ rkeys st1.renderers
          rw [hst1]
          exact hall d2 (List.mem_cons_of_mem d hd2))
        refine ⟨ihnc2.1.trans ?_, ihnc2.2.trans ?_⟩
        · show st1.renderers = st.renderers
          rw [hst1]
        · show st1.fresh = st.fresh
          rw [hst1]

theorem filter_not_mem_nil (P : List Nat) :
    P.filter (fun x => decide (x ∉ ([] : List Nat))) = P := by
  induction P with
  | nil => rfl
  | cons p rest ih => simp [List.filter_cons, ih]

theorem filter_not_mem_append (P xs ys : List Nat) :
    P.filter (fun x => decide (x ∉ xs) && decide (x ∉ ys)) =
      P.filter (fun x => decide (x ∉ (xs ++ ys))) := by
  apply List.filter_congr
  intro x hx
  by_cases h1 : x ∈ xs <;> by_cases h2 : x ∈ ys <;> simp [h1, h2]

theorem renderItems_spec (picker : JSValue → Except String JSValue)
    (keyOf : JSValue → JSValue) (items : List JSValue) :
    ∀ (idx dpLength a : Nat) (st : ACE) (snaps : List Snapshot) (P Q : List Nat),
    (∀ d ∈ items, picker d = .ok (keyOf d)) →
    (items.map keyOf).Nodup →
    wellFormed st →
    st.children = P ++ a :: Q →
    (∀ d ∈ items, ∀ n ∈ nodesFor st.renderers (keyOf d), n ∉ a :: Q) →
    (idx + items.length = dpLength + 1 ∨ items = []) →
    ∃ stF aF,
      renderItems picker items idx dpLength a st snaps =
        .ok (stF, aF, snaps ++ revSnaps keyOf items)
      ∧ (∀ k ns, rlookup st.renderers k = some ns → rlookup stF.renderers k = some ns)
      ∧ wellFormed stF
      ∧ st.fresh ≤ stF.fresh
      ∧ stF.children =
          P.filter (fun x => decide (x ∉ nodesConcat stF.renderers keyOf items.reverse))
            ++ nodesConcat stF.renderers keyOf items.reverse ++ a :: Q := by
  induction items with
  | nil =>
      intro idx dp a st snaps P Q hpick hkeys hwf hchil hnodes hdp
      refine ⟨st, a, ?_, fun k ns h => h, hwf, le_refl _, ?_⟩
      · show Except.ok (st, a, snaps) = Except.ok (st, a, snaps ++ revSnaps keyOf [])
        rw [show revSnaps keyOf [] = [] from rfl, List.append_nil]
      · show st.children = P.filter (fun x =>
            decide (x ∉ nodesConcat st.renderers keyOf ([] : List JSValue).reverse))
            ++ nodesConcat st.renderers keyOf ([] : List JSValue).reverse ++ a :: Q
        rw [show nodesConcat st.renderers keyOf ([] : List JSValue).reverse = []
          from rfl]
        rw [filter_not_mem_nil]
        simpa using hchil
  | cons d rest ih =>
      intro idx dp a st snaps P Q hpick hkeys hwf hchil hnodes hdp
      have hdpL : idx + (rest.length + 1) = dp + 1 := by
        rcases hdp with h | h
        · simpa using h
        · cases h
      have hindex : dp - idx = rest.length := by omega
      obtain ⟨st1, heq, hch, htl, hpres1, hiff1, hle1, hwfi1, hfe1, hnc1, hisome1, hfn1⟩ :=
        renderItems_step picker keyOf d rest idx dp a st snaps
          (hpick d (List.mem_cons_self d rest))
      have hwf1 : wellFormed st1 := hwfi1 hwf
      obtain ⟨hk1, he1, hd1, hcnd1, hcb1⟩ := hwf1
      obtain ⟨ns1, hns1⟩ := Option.isSome_iff_exists.mp hisome1
      have hnodes1 : nodesFor st1.renderers (keyOf d) = ns1 := by
        unfold nodesFor
        rw [hns1]
        rfl
      have hns1nd : ns1.Nodup := (he1 _ (rlookup_mem hns1)).1
      have haQfresh : ∀ x ∈ a :: Q, x < st.fresh := by
        intro x hx
        refine hwf.2.2.2.2 x ?_
        rw [hchil]
        exact List.mem_append_right P hx
      have hnsaQ : ∀ n ∈ ns1, n ∉ a :: Q := by
        rcases hfe1 (keyOf d) ns1 hns1 with h | h
        · intro n hn
          have h2 := hnodes d (List.mem_cons_self d rest)
          rw [show nodesFor st.renderers (keyOf d) = ns1 from by
            unfold nodesFor
            rw [h]
            rfl] at h2
          exact h2 n hn
        · intro n hn hc
          have h2 := haQfresh n hc
          have h3 := h n hn
          omega
      have hrestnodesaQ : ∀ d2 ∈ rest, ∀ n ∈ nodesFor st1.renderers (keyOf d2),
          n ∉ a :: Q := by
        intro d2 hd2 n hn
        rcases hx : rlookup st1.renderers (keyOf d2) with _ | ns2
        · unfold nodesFor at hn
          rw [hx] at hn
          cases hn
        · unfold nodesFor at hn
          rw [hx] at hn
          simp only [Option.getD_some] at hn
          rcases hfe1 (keyOf d2) ns2 hx with h | h
          · have h2 := hnodes d2 (List.mem_cons_of_mem d hd2)
            rw [show nodesFor st.renderers (keyOf d2) = ns2 from by
              unfold nodesFor
              rw [h]
              rfl] at h2
            exact h2 n hn
          · intro hc
            have h2 := haQfresh n hc
            have h3 := h n hn
            omega
      have hrestnodesns1 : ∀ d2 ∈ rest, ∀ n ∈ nodesFor st1.renderers (keyOf d2),
          n ∉ ns1 := by
        intro d2 hd2 n hn
        rcases hx : rlookup st1.renderers (keyOf d2) with _ | ns2
        · unfold nodesFor at hn
          rw [hx] at hn
          cases hn
        · unfold nodesFor at hn
          rw [hx] at hn
          simp only [Option.getD_some] at hn
          have hkne : keyOf d2 ≠ keyOf d := by
            intro hc
            have h1 : keyOf d ∉ rest.map keyOf := by
              rw [List.map_cons, List.nodup_cons] at hkeys
              exact hkeys.1
            exact h1 (hc ▸ List.mem_map_of_mem keyOf hd2)
          exact hd1 _ (rlookup_mem hx) _ (rlookup_mem hns1) hkne n hn
      have hch1 : st1.children = P ++ a :: Q := by rw [hch, hchil]
      have hcnd1P : (P ++ a :: Q).Nodup := by
        rw [← hch1]
        exact hcnd1
      have hplace := placeNodes_spec ns1.reverse a P Q hcnd1P
        (List.nodup_reverse.mpr hns1nd)
        (fun hc => (hnsaQ a (List.mem_reverse.mp hc)) (List.mem_cons_self a Q))
        (fun n hn hc => (hnsaQ n (List.mem_reverse.mp hn)) (List.mem_cons_of_mem a hc))
      rw [List.reverse_reverse] at hplace
      have hfilcongr : P.filter (fun x => decide (x ∉ ns1.reverse)) =
          P.filter (fun x => decide (x ∉ ns1)) := by
        apply List.filter_congr
        intro x hx
        simp [List.mem_reverse]
      rw [hfilcongr] at hplace
      rw [← hch1] at hplace
      have hplace1 : (placeNodes ns1.reverse a st1.children).1 =
          P.filter (fun x => decide (x ∉ ns1)) ++ ns1 ++ a :: Q := by rw [hplace]
      have hplace2 : (placeNodes ns1.reverse a st1.children).2 =
          ns1.reverse.getLast?.getD a := by rw [hplace]
      rw [hnodes1, hplace1, hplace2] at heq
      have hns1fresh : ∀ n ∈ ns1, n < st1.fresh := (he1 _ (rlookup_mem hns1)).2
      have hkeysrest : (rest.map keyOf).Nodup := by
        rw [List.map_cons, List.nodup_cons] at hkeys
        exact hkeys.2
      cases hcase : ns1 with
      | nil =>
          subst hcase
          rw [show (([] : List Nat).reverse.getLast?.getD a) = a from rfl] at heq
          rw [show (P.filter (fun x => decide (x ∉ ([] : List Nat))) ++ [] ++ a :: Q) =
              P ++ a :: Q from by rw [filter_not_mem_nil]; simp] at heq
          obtain ⟨stF, aF, iheq, ihpres, ihwf, ihle, ihch⟩ :=
            ih (idx + 1) dp a
              ({ st1 with children := P ++ a :: Q } : ACE)
              (snaps ++ [⟨d, keyOf d, dp - idx⟩]) P Q
              (fun x hx => hpick x (List.mem_cons_of_mem d hx))
              hkeysrest
              (by
                refine ⟨hk1, he1, hd1, hcnd1P, ?_⟩
                intro c hc
                refine hcb1 c ?_
                rw [hch1]
                exact hc)
              rfl
              hrestnodesaQ
              (Or.inl (by omega))
          refine ⟨stF, aF, ?_, fun k ns h => ihpres k ns (hpres1 k ns h),
            ihwf, le_trans hle1 ihle, ?_⟩
          · rw [heq, iheq, hindex]
            rw [show revSnaps keyOf (d :: rest) =
              Snapshot.mk d (keyOf d) rest.length :: revSnaps keyOf rest from rfl]
            simp
          · rw [ihch]
            have hB : nodesConcat stF.renderers keyOf (d :: rest).reverse =
                nodesConcat stF.renderers keyOf rest.reverse := by
              rw [List.reverse_cons, nodesConcat_append, nodesConcat_singleton]
              rw [show nodesFor stF.renderers (keyOf d) = [] from by
                unfold nodesFor
                rw [ihpres _ _ hns1]
                rfl]
              simp
            rw [hB]
      | cons n0 ntail =>
          subst hcase
          rw [show ((n0 :: ntail).reverse.getLast?.getD a) = n0 from by
            rw [List.reverse_cons, List.getLast?_concat]
            rfl] at heq
          rw [show (P.filter (fun x => decide (x ∉ n0 :: ntail)) ++ (n0 :: ntail) ++ a :: Q) =
              (P.filter (fun x => decide (x ∉ n0 :: ntail)) ++ n0 :: (ntail ++ a :: Q))
              from by simp] at heq
          obtain ⟨stF, aF, iheq, ihpres, ihwf, ihle, ihch⟩ :=
            ih (idx + 1) dp n0
              ({ st1 with children := P.filter (fun x => decide (x ∉ n0 :: ntail)) ++
                  n0 :: (ntail ++ a :: Q) } : ACE)
              (snaps ++ [⟨d, keyOf d, dp - idx⟩])
              (P.filter (fun x => decide (x ∉ n0 :: ntail)))
              (ntail ++ a :: Q)
              (fun x hx => hpick x (List.mem_cons_of_mem d hx))
              hkeysrest
              (by
                refine ⟨hk1, he1, hd1, ?_, ?_⟩
                · rw [show (P.filter (fun x => decide (x ∉ n0 :: ntail)) ++
                      n0 :: (ntail ++ a :: Q)) =
                      (P.filter (fun x => decide (x ∉ n0 :: ntail)) ++
                        (n0 :: ntail) ++ a :: Q) from by simp]
                  rw [List.nodup_append] at hcnd1P
                  rw [List.nodup_append, List.nodup_append]
                  obtain ⟨hPnd, haQnd, hPdisj⟩ := hcnd1P
                  refine ⟨⟨hPnd.filter _, hns1nd, ?_⟩, haQnd, ?_⟩
                  · intro x hx hc
                    rw [List.mem_filter] at hx
                    have h2 := hx.2
                    simp only [decide_eq_true_eq] at h2
                    exact h2 hc
                  · intro x hx
                    rcases List.mem_append.mp hx with hx | hx
                    · exact hPdisj (List.mem_of_mem_filter hx)
                    · intro hc
                      exact hnsaQ x hx hc
                · intro c hc
                  rcases List.mem_append.mp hc with hc | hc
                  · refine hcb1 c ?_
                    rw [hch1]
                    exact List.mem_append_left _ (List.mem_of_mem_filter hc)
                  · rcases List.mem_cons.mp hc with hc | hc
                    · exact hc ▸ hns1fresh n0 (List.mem_cons_self n0 ntail)
                    · rcases List.mem_append.mp hc with hc | hc
                      · exact hns1fresh c (List.mem_cons_of_mem n0 hc)
                      · refine hcb1 c ?_
                        rw [hch1]
                        exact List.mem_append_right P hc)
              rfl
              (by
                intro d2 hd2 n hn hc
                rcases List.mem_cons.mp hc with hc | hc
                · exact hrestnodesns1 d2 hd2 n hn (hc ▸ List.mem_cons_self n0 ntail)
                · rcases List.mem_append.mp hc with hc | hc
                  · exact hrestnodesns1 d2 hd2 n hn (List.mem_cons_of_mem n0 hc)
                  · exact hrestnodesaQ d2 hd2 n hn hc)
              (Or.inl (by omega))
          refine ⟨stF, aF, ?_, fun k ns h => ihpres k ns (hpres1 k ns h),
            ihwf, le_trans hle1 ihle, ?_⟩
          · rw [heq, iheq, hindex]
            rw [show revSnaps keyOf (d :: rest) =
              Snapshot.mk d (keyOf d) rest.length :: revSnaps keyOf rest from rfl]
            simp
          · rw [ihch]
            have hB : nodesConcat stF.renderers keyOf (d :: rest).reverse =
                nodesConcat stF.renderers keyOf rest.reverse ++ (n0 :: ntail) := by
              rw [List.reverse_cons, nodesConcat_append, nodesConcat_singleton]
              rw [show nodesFor stF.renderers (keyOf d) = n0 :: ntail from by
                unfold nodesFor
                rw [ihpres _ _ hns1]
                rfl]
            rw [hB]
            rw [List.filter_filter, filter_not_mem_append]
            rw [show (P.filter (fun x => decide (x ∉
                (nodesConcat stF.renderers keyOf rest.reverse ++ n0 :: ntail))) ++
                (nodesConcat stF.renderers keyOf rest.reverse ++ n0 :: ntail) ++ a :: Q) =
                (P.filter (fun x => decide (x ∉
                  (nodesConcat stF.renderers keyOf rest.reverse ++ n0 :: ntail))) ++
                  nodesConcat stF.renderers keyOf rest.reverse ++ n0 :: (ntail ++ a :: Q))
                from by simp]

theorem anchorAppend_wf (st1 : ACE) (hwf1 : wellFormed st1) :
    wellFormed { st1 with
      children := st1.children ++ [st1.fresh],
      fresh := st1.fresh + 1 } := by
  obtain ⟨hk, he, hd, hcnd, hcb⟩ := hwf1
  refine ⟨hk, ?_, hd, ?_, ?_⟩
  · intro e hmem
    obtain ⟨h1, h2⟩ := he e hmem
    exact ⟨h1, fun n hn => Nat.lt_succ_of_lt (h2 n hn)⟩
  · show (st1.children ++ [st1.fresh]).Nodup
    refine hcnd.append (List.nodup_singleton _) ?_
    intro y hy hmem
    rw [List.mem_singleton] at hmem
    subst hmem
    exact absurd (hcb _ hy) (by omega)
  · intro c hc
    rcases List.mem_append.mp hc with hc | hc
    · exact Nat.lt_succ_of_lt (hcb c hc)
    · rw [List.mem_singleton] at hc
      subst hc
      exact Nat.lt_succ_self _

theorem rkeys_filter_mem (r : List (JSValue × List Nat)) (ks : List JSValue)
    (k : JSValue) :
    k ∈ rkeys (r.filter (fun e => decide (e.1 ∈ ks))) ↔ k ∈ rkeys r ∧ k ∈ ks := by
  unfold rkeys
  rw [List.mem_map]
  constructor
  · rintro ⟨e, he, heq⟩
    rw [List.mem_filter] at he
    subst heq
    exact ⟨List.mem_map_of_mem _ he.1, of_decide_eq_true he.2⟩
  · rintro ⟨hk, hks⟩
    rw [List.mem_map] at hk
    obtain ⟨e, he, heq⟩ := hk
    exact ⟨e, List.mem_filter.mpr ⟨he, by subst heq; simpa using hks⟩, heq⟩

/-- C1: an array-mode render pass over a keyed data sequence iterates the
sequence in reverse (the emitted snapshot list is exactly `revSnaps` of the
reversed data, so the renderer of the item at forward position `p` receives
index `p`), skips re-homing a node that already immediately precedes the
moving anchor (such a `placeNodes` step leaves the child list untouched), and
on success the root nodes of all per-key renderers appear at the end of the
host's child list in forward data order. -/
theorem c1_array_render_order (picker : JSValue → Except String JSValue)
    (keyOf : JSValue → JSValue) (dataSource : List JSValue) (st : ACE)
    (hpick : ∀ d ∈ dataSource, picker d = .ok (keyOf d))
    (hkeys : (dataSource.map keyOf).Nodup)
    (hwf : wellFormed st) :
    ∃ st' : ACE, ∃ snaps : List Snapshot,
      arrayContextElementRender picker dataSource st = .ok (st', snaps)
      ∧ snaps = revSnaps keyOf dataSource.reverse
      ∧ (∀ (p : Nat) (d : JSValue), dataSource[p]? = some d →
          Snapshot.mk d (keyOf d) p ∈ snaps)
      ∧ (∃ restPart : List Nat,
          st'.children = restPart ++ nodesConcat st'.renderers keyOf dataSource
          ∧ ∀ x ∈ restPart, x ∉ nodesConcat st'.renderers keyOf dataSource)
      ∧ (∀ (cs : List Nat) (b n : Nat) (rns : List Nat),
          prevSibling cs b = some n →
          placeNodes (n :: rns) b cs = placeNodes rns n cs) := by
  obtain ⟨st1, hrmeq, hren1, hchiff1, hfr1, htl1, hwf1⟩ :=
    removeExpiredData_spec picker keyOf dataSource st hpick hwf
  have hwf2 := anchorAppend_wf st1 hwf1
  have hnodes2 : ∀ d ∈ dataSource.reverse,
      ∀ n ∈ nodesFor ({ st1 with
        children := st1.children ++ [st1.fresh],
        fresh := st1.fresh + 1 } : ACE).renderers (keyOf d),
      n ∉ st1.fresh :: ([] : List Nat) := by
    intro d hd n hn hc
    have hn2 : n ∈ nodesFor st1.renderers (keyOf d) := hn
    rcases hx : rlookup st1.renderers (keyOf d) with _ | ns
    · unfold nodesFor at hn2
      rw [hx] at hn2
      cases hn2
    · unfold nodesFor at hn2
      rw [hx] at hn2
      simp only [Option.getD_some] at hn2
      have hb := (hwf1.2.1 _ (rlookup_mem hx)).2 n hn2
      rcases List.mem_cons.mp hc with hc2 | hc2
      · omega
      · cases hc2
  obtain ⟨stF, aF, heq2, hpresF, hwfF, hleF, hchF⟩ :=
    renderItems_spec picker keyOf dataSource.reverse 0 (dataSource.length - 1)
      st1.fresh
      ({ st1 with
        children := st1.children ++ [st1.fresh],
        fresh := st1.fresh + 1 } : ACE)
      [] st1.children []
      (fun d hd => hpick d (List.mem_reverse.mp hd))
      (by rw [List.map_reverse]; exact List.nodup_reverse.mpr hkeys)
      hwf2 rfl hnodes2
      (by
        rcases dataSource with _ | ⟨d0, ds⟩
        · exact Or.inr rfl
        · left
          rw [List.length_reverse, List.length_cons]
          omega)
  rw [List.nil_append] at heq2
  rw [List.reverse_reverse] at hchF
  refine ⟨{ stF with children := stF.children.dropLast },
    revSnaps keyOf dataSource.reverse, ?_, rfl, ?_, ?_, ?_⟩
  · simp only [arrayContextElementRender, hrmeq]
    rw [heq2]
  · exact fun p d h => mem_revSnaps_of_getElem keyOf dataSource p d h
  · refine ⟨st1.children.filter (fun x =>
      decide (x ∉ nodesConcat stF.renderers keyOf dataSource)), ?_, ?_⟩
    · show stF.children.dropLast =
        st1.children.filter (fun x =>
          decide (x ∉ nodesConcat stF.renderers keyOf dataSource))
          ++ nodesConcat stF.renderers keyOf dataSource
      rw [hchF, List.dropLast_concat]
    · intro x hx
      rw [List.mem_filter] at hx
      exact of_decide_eq_true hx.2
  · intro cs b n rns h
    simp [placeNodes, h]

theorem c1_array_render_order_witness :
    ([JSValue.str "a", JSValue.str "b"].map id).Nodup
    ∧ wellFormed ⟨[], [], 0, 1⟩
    ∧ ∃ st' : ACE, ∃ snaps : List Snapshot,
        arrayContextElementRender (fun d => Except.ok d)
            [JSValue.str "a", JSValue.str "b"] ⟨[], [], 0, 1⟩ = .ok (st', snaps)
        ∧ snaps = revSnaps id [JSValue.str "a", JSValue.str "b"].reverse
        ∧ (∀ (p : Nat) (d : JSValue),
            [JSValue.str "a", JSValue.str "b"][p]? = some d →
            Snapshot.mk d (id d) p ∈ snaps)
        ∧ (∃ restPart : List Nat,
            st'.children = restPart ++
              nodesConcat st'.renderers id [JSValue.str "a", JSValue.str "b"]
            ∧ ∀ x ∈ restPart,
                x ∉ nodesConcat st'.renderers id [JSValue.str "a", JSValue.str "b"])
        ∧ (∀ (cs : List Nat) (b n : Nat) (rns : List Nat),
            prevSibling cs b = some n →
            placeNodes (n :: rns) b cs = placeNodes rns n cs) :=
  ⟨by decide, by decide,
    c1_array_render_order (fun d => Except.ok d) id
      [JSValue.str "a", JSValue.str "b"] ⟨[], [], 0, 1⟩
      (fun d _ => rfl) (by decide) (by decide)⟩

/-- C2: the keyed renderer registry keeps at most one renderer per key (its
key list is duplicate-free after every successful pass); a renderer's cloned
node list is created only on first sight of its key and the same node list
is reused unchanged on every later pass while the key persists (in
particular, when every key was already registered no new nodes are cloned —
only the transient anchor is allocated); and every previously registered key
absent from the current pass's key set has its registry entry deleted and
its root nodes removed from the host's children. -/
theorem c2_keyed_renderer_registry (picker : JSValue → Except String JSValue)
    (keyOf : JSValue → JSValue) (dataSource : List JSValue) (st : ACE)
    (hpick : ∀ d ∈ dataSource, picker d = .ok (keyOf d))
    (hwf : wellFormed st) :
    ∃ st' : ACE, ∃ snaps : List Snapshot,
      arrayContextElementRender picker dataSource st = .ok (st', snaps)
      ∧ (rkeys st'.renderers).Nodup
      ∧ (∀ k ns, rlookup st.renderers k = some ns → k ∈ dataSource.map keyOf →
          rlookup st'.renderers k = some ns)
      ∧ (∀ e ∈ st.renderers, e.1 ∉ dataSource.map keyOf →
          rlookup st'.renderers e.1 = none ∧ ∀ n ∈ e.2, n ∉ st'.children)
      ∧ (∀ k, k ∈ rkeys st'.renderers ↔ k ∈ dataSource.map keyOf)
      ∧ ((∀ d ∈ dataSource, keyOf d ∈ rkeys st.renderers) →
          st'.renderers = st.renderers.filter
            (fun e => decide (e.1 ∈ dataSource.map keyOf))
          ∧ st'.fresh = st.fresh + 1) := by
  obtain ⟨st1, hrmeq, hren1, hchiff1, hfr1, htl1, hwf1⟩ :=
    removeExpiredData_spec picker keyOf dataSource st hpick hwf
  have hwf2 := anchorAppend_wf st1 hwf1
  obtain ⟨stF, aF, snapsF, iheq, ihpres, ihwf, ihiff, ihle, ihprov, ihfe, ihnc⟩ :=
    renderItems_registry_spec picker keyOf dataSource.reverse 0
      (dataSource.length - 1) st1.fresh
      ({ st1 with
        children := st1.children ++ [st1.fresh],
        fresh := st1.fresh + 1 } : ACE)
      []
      (fun d hd => hpick d (List.mem_reverse.mp hd))
      hwf2
  refine ⟨{ stF with children := stF.children.dropLast }, snapsF, ?_, ihwf.1,
    ?_, ?_, ?_, ?_⟩
  · simp only [arrayContextElementRender, hrmeq]
    rw [iheq]
  · intro k ns hlk hkmem
    have hmem : (k, ns) ∈ st.renderers := rlookup_mem hlk
    have hmem1 : (k, ns) ∈ st1.renderers := by
      rw [hren1]
      exact List.mem_filter.mpr ⟨hmem, by simpa using hkmem⟩
    have hlk1 : rlookup st1.renderers k = some ns := rlookup_of_mem hwf1.1 hmem1
    exact ihpres k ns hlk1
  · intro e hmem hknot
    constructor
    · rcases hx : rlookup stF.renderers e.1 with _ | ns2
      · rfl
      · exfalso
        have hk2 : e.1 ∈ rkeys stF.renderers :=
          rlookup_isSome_iff.mp (by rw [hx]; rfl)
        rcases (ihiff e.1).mp hk2 with h | h
        · have h2 := (rkeys_filter_mem st.renderers (dataSource.map keyOf) e.1).mp
            (by rw [← hren1]; exact h)
          exact hknot h2.2
        · rw [List.map_reverse, List.mem_reverse] at h
          exact hknot h
    · intro n hn hc
      have hcF : n ∈ stF.children := List.dropLast_subset _ hc
      rcases ihprov n hcF with h | ⟨d2, hd2, h⟩
      · have h2 : n ∈ st1.children ++ [st1.fresh] := h
        rcases List.mem_append.mp h2 with h3 | h3
        · have h4 := (hchiff1 n).mp h3
          exact (h4.2 e hmem hknot) hn
        · rw [List.mem_singleton] at h3
          have hb := (hwf.2.1 e hmem).2 n hn
          rw [hfr1] at h3
          omega
      · rcases hx : rlookup stF.renderers (keyOf d2) with _ | ns2
        · unfold nodesFor at h
          rw [hx] at h
          cases h
        · unfold nodesFor at h
          rw [hx] at h
          simp only [Option.getD_some] at h
          rcases ihfe (keyOf d2) ns2 hx with h2 | h2
          · have hmem2 : (keyOf d2, ns2) ∈ st1.renderers := rlookup_mem h2
            rw [hren1, List.mem_filter] at hmem2
            have hne : e.1 ≠ keyOf d2 := by
              intro hc2
              exact hknot (hc2 ▸ of_decide_eq_true hmem2.2)
            exact hwf.2.2.1 e hmem (keyOf d2, ns2) hmem2.1 hne n hn h
          · have hb := (hwf.2.1 e hmem).2 n hn
            have h4 : st1.fresh + 1 ≤ n := h2 n h
            rw [hfr1] at h4
            omega
  · intro k
    constructor
    · intro hk2
      rcases (ihiff k).mp hk2 with h | h
      · have h2 := (rkeys_filter_mem st.renderers (dataSource.map keyOf) k).mp
          (by rw [← hren1]; exact h)
        exact h2.2
      · rw [List.map_reverse, List.mem_reverse] at h
        exact h
    · intro hk2
      refine (ihiff k).mpr (Or.inr ?_)
      rw [List.map_reverse, List.mem_reverse]
      exact hk2
  · intro hall
    have hall2 : ∀ d ∈ dataSource.reverse, keyOf d ∈
        rkeys ({ st1 with
          children := st1.children ++ [st1.fresh],
          fresh := st1.fresh + 1 } : ACE).renderers := by
      intro d hd
      show keyOf d ∈ rkeys st1.renderers
      rw [hren1]
      refine (rkeys_filter_mem st.renderers (dataSource.map keyOf) (keyOf d)).mpr ?_
      exact ⟨hall d (List.mem_reverse.mp hd),
        List.mem_map_of_mem keyOf (List.mem_reverse.mp hd)⟩
    obtain ⟨hr, hf⟩ := ihnc hall2
    constructor
    · show stF.renderers = st.renderers.filter
        (fun e => decide (e.1 ∈ dataSource.map keyOf))
      rw [hr]
      show st1.renderers = st.renderers.filter
        (fun e => decide (e.1 ∈ dataSource.map keyOf))
      rw [hren1]
    · show stF.fresh = st.fresh + 1
      rw [hf]
      show st1.fresh + 1 = st.fresh + 1
      rw [hfr1]

theorem c2_keyed_renderer_registry_witness :
    wellFormed ⟨[(JSValue.str "a", [0]), (JSValue.str "b", [1])], [0, 1], 2, 1⟩
    ∧ ∃ st' : ACE, ∃ snaps : List Snapshot,
        arrayContextElementRender (fun d => Except.ok d) [JSValue.str "b"]
            ⟨[(JSValue.str "a", [0]), (JSValue.str "b", [1])], [0, 1], 2, 1⟩ =
          .ok (st', snaps)
        ∧ (rkeys st'.renderers).Nodup
        ∧ (∀ k ns,
            rlookup [(JSValue.str "a", [0]), (JSValue.str "b", [1])] k = some ns →
            k ∈ [JSValue.str "b"].map id → rlookup st'.renderers k = some ns)
        ∧ (∀ e ∈ [(JSValue.str "a", [0]), (JSValue.str "b", [1])],
            e.1 ∉ [JSValue.str "b"].map id →
            rlookup st'.renderers e.1 = none ∧ ∀ n ∈ e.2, n ∉ st'.children)
        ∧ (∀ k, k ∈ rkeys st'.renderers ↔ k ∈ [JSValue.str "b"].map id)
        ∧ ((∀ d ∈ [JSValue.str "b"],
              id d ∈ rkeys [(JSValue.str "a", [0]), (JSValue.str "b", [1])]) →
            st'.renderers = [(JSValue.str "a", [0]), (JSValue.str "b", [1])].filter
              (fun e => decide (e.1 ∈ [JSValue.str "b"].map id))
            ∧ st'.fresh = 2 + 1) :=
  ⟨by decide,
    c2_keyed_renderer_registry (fun d => Except.ok d) id [JSValue.str "b"]
      ⟨[(JSValue.str "a", [0]), (JSValue.str "b", [1])], [0, 1], 2, 1⟩
      (fun d _ => rfl) (by decide)⟩
